import Mathlib

/-!
# A verification development for `task_5.cpp` (vector-scene editor)

The program keeps a tree of shapes owned through `std::unique_ptr`, edits it
with command objects that hold raw pointers into the tree, and offers
undo/redo, hit-testing and a depth-first cursor.

## Memory model

* Coordinates (`float` in the source) are exact rationals.
* Every `Element` object carries the address it was allocated at (a natural
  number); the address is the identity of the object while it is alive.
* The allocator is the number `next`: an allocation returns `next` and
  continues with `next + 1`.  Within one run of the embedded operations a
  freed address is therefore not handed out again, whereas `operator new`
  may give the block of a destroyed shape to the next clone.  Statements
  about objects that are all alive do not depend on this; where a new object
  is compared with a destroyed one, the address the allocator hands out is a
  parameter of the statement.
* A value of type `Element` is an owning pointer `std::unique_ptr<Element>`:
  it is either empty (`null`) or owns one object together with everything
  that object owns.  Erasing an owning pointer from a vector destroys the
  whole subtree: in the embedding the subtree is dropped.
* A raw pointer (`Element*`, `Group*`) is an address.  The objects a raw
  pointer of the program can refer to live in the tree owned by
  `Editor::root_`; dereferencing is `Element.deref` on that tree, and a raw
  pointer whose object is no longer in the tree is dangling.
* Functions return `Option`; `none` is undefined behaviour of the source (a
  call through a null or dangling pointer).  The two loops that are driven
  by a cursor take a bound on the number of rounds and also return `none`
  when the bound is too small.
-/

namespace Task5

/-- Owning pointer to an `Element`: `null`, or one of the three concrete classes
`Circle{x,y,r}`, `Rectangle{x,y,w,h}`, `Group{x,y,elements_}` with its address. -/
inductive Element where
  | null : Element
  | circle (addr : Nat) (x y r : ℚ) : Element
  | rectangle (addr : Nat) (x y w h : ℚ) : Element
  | group (addr : Nat) (x y : ℚ) (elements_ : List Element) : Element
deriving Repr

namespace Element

mutual
/-- Decision procedure for equality of owning pointers (same addresses, same
numbers, same children). -/
def decEq : (a b : Element) → Decidable (a = b)
  | null, null => isTrue rfl
  | circle a x y r, circle a' x' y' r' =>
    if h : a = a' ∧ x = x' ∧ y = y' ∧ r = r' then
      isTrue (by rw [h.1, h.2.1, h.2.2.1, h.2.2.2])
    else isFalse (fun e => h (by cases e; exact ⟨rfl, rfl, rfl, rfl⟩))
  | rectangle a x y w h, rectangle a' x' y' w' h' =>
    if hh : a = a' ∧ x = x' ∧ y = y' ∧ w = w' ∧ h = h' then
      isTrue (by rw [hh.1, hh.2.1, hh.2.2.1, hh.2.2.2.1, hh.2.2.2.2])
    else isFalse (fun e => hh (by cases e; exact ⟨rfl, rfl, rfl, rfl, rfl⟩))
  | group a x y es, group a' x' y' es' =>
    if h : a = a' ∧ x = x' ∧ y = y' then
      match decEqAll es es' with
      | isTrue h2 => isTrue (by rw [h.1, h.2.1, h.2.2, h2])
      | isFalse h2 => isFalse (fun e => h2 (by cases e; rfl))
    else isFalse (fun e => h (by cases e; exact ⟨rfl, rfl, rfl⟩))
  | null, circle .. => isFalse (fun e => by cases e)
  | null, rectangle .. => isFalse (fun e => by cases e)
  | null, group .. => isFalse (fun e => by cases e)
  | circle .., null => isFalse (fun e => by cases e)
  | circle .., rectangle .. => isFalse (fun e => by cases e)
  | circle .., group .. => isFalse (fun e => by cases e)
  | rectangle .., null => isFalse (fun e => by cases e)
  | rectangle .., circle .. => isFalse (fun e => by cases e)
  | rectangle .., group .. => isFalse (fun e => by cases e)
  | group .., null => isFalse (fun e => by cases e)
  | group .., circle .. => isFalse (fun e => by cases e)
  | group .., rectangle .. => isFalse (fun e => by cases e)
/-- Decision procedure for equality of vectors of owning pointers. -/
def decEqAll : (as bs : List Element) → Decidable (as = bs)
  | [], [] => isTrue rfl
  | [], _ :: _ => isFalse (fun e => by cases e)
  | _ :: _, [] => isFalse (fun e => by cases e)
  | a :: as, b :: bs =>
    match decEq a b with
    | isTrue h1 =>
      match decEqAll as bs with
      | isTrue h2 => isTrue (by rw [h1, h2])
      | isFalse h2 => isFalse (fun e => h2 (by cases e; rfl))
    | isFalse h1 => isFalse (fun e => h1 (by cases e; rfl))
end

instance : DecidableEq Element := decEq

/-- The raw pointer held by an owning pointer, `unique_ptr::get()`; `none` is `nullptr`. -/
def get : Element → Option Nat
  | null => none
  | circle a _ _ _ => some a
  | rectangle a _ _ _ _ => some a
  | group a _ _ _ => some a

/-- The children vector of a group, `Group::getElements()`. -/
def getElements : Element → List Element
  | group _ _ _ es => es
  | _ => []

/-- Whether the pointer owns a `Group` object (`dynamic_cast<Group*>` succeeds). -/
def isGroup : Element → Bool
  | group _ _ _ _ => true
  | _ => false

mutual
/-- No owning pointer in the subtree is empty, and the pointer itself is not. -/
def noNull : Element → Bool
  | null => false
  | circle _ _ _ _ => true
  | rectangle _ _ _ _ _ => true
  | group _ _ _ es => noNullAll es
/-- No owning pointer in any of the subtrees is empty. -/
def noNullAll : List Element → Bool
  | [] => true
  | e :: es => noNull e && noNullAll es
end

mutual
/-- The addresses of all objects owned through the pointer, in pre-order. -/
def addrs : Element → List Nat
  | null => []
  | circle a _ _ _ => [a]
  | rectangle a _ _ _ _ => [a]
  | group a _ _ es => a :: addrsAll es
/-- The addresses of all objects owned through a vector of pointers. -/
def addrsAll : List Element → List Nat
  | [] => []
  | e :: es => addrs e ++ addrsAll es
end

mutual
/-- The subtree with every address replaced by `0`: kind, coordinates, sizes,
nesting and child order, and nothing else. -/
def value : Element → Element
  | null => null
  | circle _ x y r => circle 0 x y r
  | rectangle _ x y w h => rectangle 0 x y w h
  | group _ x y es => group 0 x y (valueAll es)
/-- The values of a vector of subtrees. -/
def valueAll : List Element → List Element
  | [] => []
  | e :: es => value e :: valueAll es
end

mutual
/-- The positions of the object and of all its descendants, in pre-order. -/
def positions : Element → List (ℚ × ℚ)
  | null => []
  | circle _ x y _ => [(x, y)]
  | rectangle _ x y _ _ => [(x, y)]
  | group _ x y es => (x, y) :: positionsAll es
/-- The positions of all objects below a vector of pointers. -/
def positionsAll : List Element → List (ℚ × ℚ)
  | [] => []
  | e :: es => positions e ++ positionsAll es
end

mutual
/-- The subtree with every position replaced by `(0,0)`: identities, kinds,
sizes, nesting and child order. -/
def unplaced : Element → Element
  | null => null
  | circle a _ _ r => circle a 0 0 r
  | rectangle a _ _ w h => rectangle a 0 0 w h
  | group a _ _ es => group a 0 0 (unplacedAll es)
/-- The same for a vector of subtrees. -/
def unplacedAll : List Element → List Element
  | [] => []
  | e :: es => unplaced e :: unplacedAll es
end

/-- Adding the delta `(dx, dy)` to a position. -/
def shift (dx dy : ℚ) (p : ℚ × ℚ) : ℚ × ℚ :=
  (p.1 + dx, p.2 + dy)

mutual
/-- The descendants of an object in pre-order: each child followed by its own
descendants, children in vector order. -/
def descendants : Element → List Element
  | group _ _ _ es => preorderAll es
  | _ => []
/-- Pre-order listing of a vector of subtrees, each root included. -/
def preorderAll : List Element → List Element
  | [] => []
  | e :: es => (e :: descendants e) ++ preorderAll es
end

end Element

/-- One line of the textual dump written by `print`: the indentation and the
numbers that are streamed after the class name. -/
inductive Line where
  | circle (indent : Nat) (x y r : ℚ) : Line
  | rectangle (indent : Nat) (x y w h : ℚ) : Line
  | group (indent : Nat) (x y : ℚ) : Line
deriving Repr, DecidableEq

namespace Element

mutual
/-- The virtual `print(indent)`: `Circle::print`, `Rectangle::print`, `Group::print`. -/
def print : Element → Nat → Option (List Line)
  | null, _ => none
  | circle _ x y r, indent => some [Line.circle indent x y r]
  | rectangle _ x y w h, indent => some [Line.rectangle indent x y w h]
  | group _ x y es, indent =>
    match printAll es (indent + 2) with
    | none => none
    | some ls => some (Line.group indent x y :: ls)
/-- The loop `for (const auto& e : elements_) e->print(indent + 2)`. -/
def printAll : List Element → Nat → Option (List Line)
  | [], _ => some []
  | e :: es, indent =>
    match print e indent with
    | none => none
    | some l =>
      match printAll es indent with
      | none => none
      | some ls => some (l ++ ls)
end

mutual
/-- The virtual `clone()`; the second component threads the allocator.
`Group::clone` allocates the new group first and then clones the children in order. -/
def clone : Element → Nat → Option (Element × Nat)
  | null, _ => none
  | circle _ x y r, n => some (circle n x y r, n + 1)
  | rectangle _ x y w h, n => some (rectangle n x y w h, n + 1)
  | group _ x y es, n =>
    match cloneAll es (n + 1) with
    | none => none
    | some (es', n') => some (group n x y es', n')
/-- The loop `for (const auto& e : elements_) g->add(e->clone())`. -/
def cloneAll : List Element → Nat → Option (List Element × Nat)
  | [], n => some ([], n)
  | e :: es, n =>
    match clone e n with
    | none => none
    | some (e', n1) =>
      match cloneAll es n1 with
      | none => none
      | some (es', n2) => some (e' :: es', n2)
end

mutual
/-- The virtual `move(dx, dy)`: `Circle::move`, `Rectangle::move`, `Group::move`. -/
def move : Element → ℚ → ℚ → Option Element
  | null, _, _ => none
  | circle a x y r, dx, dy => some (circle a (x + dx) (y + dy) r)
  | rectangle a x y w h, dx, dy => some (rectangle a (x + dx) (y + dy) w h)
  | group a x y es, dx, dy =>
    match moveAll es dx dy with
    | none => none
    | some es' => some (group a (x + dx) (y + dy) es')
/-- The loop `for (auto& e : elements_) e->move(dx, dy)`. -/
def moveAll : List Element → ℚ → ℚ → Option (List Element)
  | [], _, _ => some []
  | e :: es, dx, dy =>
    match move e dx dy with
    | none => none
    | some e' =>
      match moveAll es dx dy with
      | none => none
      | some es' => some (e' :: es')
end

mutual
/-- Dereference the raw pointer `a` in the tree owned by the pointer: the first
object in pre-order that lives at address `a`, `none` when there is none. -/
def deref : Element → Nat → Option Element
  | null, _ => none
  | circle b x y r, a => if b = a then some (circle b x y r) else none
  | rectangle b x y w h, a => if b = a then some (rectangle b x y w h) else none
  | group b x y es, a => if b = a then some (group b x y es) else derefAll es a
/-- Dereference within a vector of owning pointers. -/
def derefAll : List Element → Nat → Option Element
  | [], _ => none
  | e :: es, a =>
    match deref e a with
    | some o => some o
    | none => derefAll es a
end

mutual
/-- Overwrite the object that `deref` finds at address `a` by `v`. -/
def store : Element → Nat → Element → Element
  | null, _, _ => null
  | circle b x y r, a, v => if b = a then v else circle b x y r
  | rectangle b x y w h, a, v => if b = a then v else rectangle b x y w h
  | group b x y es, a, v => if b = a then v else group b x y (storeAll es a v)
/-- Overwrite within a vector of owning pointers. -/
def storeAll : List Element → Nat → Element → List Element
  | [], _, _ => []
  | e :: es, a, v =>
    match deref e a with
    | some _ => store e a v :: es
    | none => e :: storeAll es a v
end

/-- A member call `p->f(...)` through the raw pointer `p` on the tree `root`:
the object at `p` is read, `f` computes its new state, the result is written
back.  `none` when `p` is dangling or `f` itself is undefined. -/
def invoke (root : Element) (p : Nat) (f : Element → Option Element) : Option Element :=
  match deref root p with
  | none => none
  | some o =>
    match f o with
    | none => none
    | some o' => some (store root p o')

mutual
/-- The virtual `find(x_, y_)`: `Circle::find`, `Rectangle::find`, `Group::find`.
The inner option is the returned raw pointer (`none` is `nullptr`). -/
def find : Element → ℚ → ℚ → Option (Option Nat)
  | null, _, _ => none
  | circle a x y r, x_, y_ =>
    let dx := x_ - x
    let dy := y_ - y
    some (if dx * dx + dy * dy ≤ r * r then some a else none)
  | rectangle a x y w h, x_, y_ =>
    some (if x_ ≥ x ∧ x_ ≤ x + w ∧ y_ ≥ y ∧ y_ ≤ y + h then some a else none)
  | group a x y es, x_, y_ =>
    if |x - x_| < 1 / 100000 ∧ |y - y_| < 1 / 100000 then some (some a)
    else findAll es (x_ - x) (y_ - y)
/-- The loop of `Group::find` over the children, with the re-offset query point. -/
def findAll : List Element → ℚ → ℚ → Option (Option Nat)
  | [], _, _ => some none
  | e :: es, x_, y_ =>
    match find e x_ y_ with
    | none => none
    | some (some found) => some (some found)
    | some none => findAll es x_ y_
end

end Element

namespace Group

/-- The body of `Group::add(e)` on the group object `this`: `elements_.push_back(e)`. -/
def add : Element → Element → Option Element
  | Element.group a x y es, e => some (Element.group a x y (es ++ [e]))
  | _, _ => none

/-- The body of `Group::remove(e)` on the group object `this`: erase every owning
pointer whose `get()` equals the raw pointer `e`. -/
def remove : Element → Option Nat → Option Element
  | Element.group a x y es, e =>
    some (Element.group a x y (es.filter (fun ptr => decide (ptr.get ≠ e))))
  | _, _ => none

end Group

/-- The four command classes with their data members.  Raw pointers are
addresses; `element_` of `AddCommand` and `clone_` are owning pointers. -/
inductive Command where
  | AddCommand (target_ : Nat) (element_ : Element) : Command
  | RemoveCommand (target_ : Nat) (element_ : Nat) (clone_ : Element) : Command
  | MoveCommand (element_ : Nat) (dx_ dy_ : ℚ) : Command
  | MoveToGroupCommand (source_ target_ : Nat) (element_ : Nat) (clone_ : Element) : Command
deriving Repr, DecidableEq

namespace Command

/-- Constructor `RemoveCommand(target, element)`: `clone_(element->clone())`. -/
def mkRemove (root : Element) (next : Nat) (target element : Nat) : Option (Command × Nat) :=
  match root.deref element with
  | none => none
  | some o =>
    match o.clone next with
    | none => none
    | some (c, next') => some (RemoveCommand target element c, next')

/-- Constructor `MoveToGroupCommand(source, target, element)`: `clone_(element->clone())`. -/
def mkMoveToGroup (root : Element) (next : Nat) (source target element : Nat) :
    Option (Command × Nat) :=
  match root.deref element with
  | none => none
  | some o =>
    match o.clone next with
    | none => none
    | some (c, next') => some (MoveToGroupCommand source target element c, next')

/-- The virtual `execute()` of the four commands, on the tree under `root_` and the
allocator; the command is returned because `AddCommand::execute` moves out of `element_`. -/
def execute : Command → Element → Nat → Option (Command × Element × Nat)
  | AddCommand target_ element_, root, next =>
    match root.invoke target_ (fun g => Group.add g element_) with
    | none => none
    | some root' => some (AddCommand target_ Element.null, root', next)
  | RemoveCommand target_ element_ clone_, root, next =>
    match root.invoke target_ (fun g => Group.remove g (some element_)) with
    | none => none
    | some root' => some (RemoveCommand target_ element_ clone_, root', next)
  | MoveCommand element_ dx_ dy_, root, next =>
    match root.invoke element_ (fun e => e.move dx_ dy_) with
    | none => none
    | some root' => some (MoveCommand element_ dx_ dy_, root', next)
  | MoveToGroupCommand source_ target_ element_ clone_, root, next =>
    match clone_.clone next with
    | none => none
    | some (d, next') =>
      match root.invoke target_ (fun g => Group.add g d) with
      | none => none
      | some root1 =>
        match root1.invoke source_ (fun g => Group.remove g (some element_)) with
        | none => none
        | some root2 => some (MoveToGroupCommand source_ target_ element_ clone_, root2, next')

/-- The virtual `undo()` of the four commands. -/
def undo : Command → Element → Nat → Option (Command × Element × Nat)
  | AddCommand target_ element_, root, next =>
    match root.invoke target_ (fun g => Group.remove g element_.get) with
    | none => none
    | some root' => some (AddCommand target_ element_, root', next)
  | RemoveCommand target_ element_ clone_, root, next =>
    match clone_.clone next with
    | none => none
    | some (d, next') =>
      match root.invoke target_ (fun g => Group.add g d) with
      | none => none
      | some root' => some (RemoveCommand target_ element_ clone_, root', next')
  | MoveCommand element_ dx_ dy_, root, next =>
    match root.invoke element_ (fun e => e.move (-dx_) (-dy_)) with
    | none => none
    | some root' => some (MoveCommand element_ dx_ dy_, root', next)
  | MoveToGroupCommand source_ target_ element_ clone_, root, next =>
    match root.invoke target_ (fun g => Group.remove g clone_.get) with
    | none => none
    | some root1 =>
      match clone_.clone next with
      | none => none
      | some (d, next') =>
        match root1.invoke source_ (fun g => Group.add g d) with
        | none => none
        | some root2 => some (MoveToGroupCommand source_ target_ element_ clone_, root2, next')

end Command

/-- A frame of the cursor: the group (a pointer to a group of the tree, which
does not change while the cursor is used) and the index of its next child. -/
structure StackFrame where
  group : Element
  index : Nat
deriving Repr, DecidableEq

/-- The cursor `ElementIterator`; the head of the list is `stack_.back()`. -/
structure ElementIterator where
  stack_ : List StackFrame
deriving Repr, DecidableEq

namespace ElementIterator

/-- Helper `pushGroup(g)`: `stack_.emplace_back(g)`. -/
def pushGroup (stack : List StackFrame) (g : Element) : List StackFrame :=
  ⟨g, 0⟩ :: stack

/-- Constructor `ElementIterator(root)`. -/
def mk' (root : Element) : ElementIterator :=
  ⟨pushGroup [] root⟩

/-- Method `hasNext()`: `!stack_.empty()`. -/
def hasNext (it : ElementIterator) : Bool :=
  !it.stack_.isEmpty

/-- The loop of `next()` on the frame stack: returns the raw pointer handed out
(as the pointer read from the vector, `null` for `nullptr`) and the new stack. -/
def nextLoop : List StackFrame → Element × List StackFrame
  | [] => (Element.null, [])
  | current :: rest =>
    match current.group.getElements.get? current.index with
    | some e =>
      let stack := { current with index := current.index + 1 } :: rest
      (e, if e.isGroup then pushGroup stack e else stack)
    | none => nextLoop rest

/-- Method `next()`. -/
def next (it : ElementIterator) : Element × ElementIterator :=
  ((nextLoop it.stack_).1, ⟨(nextLoop it.stack_).2⟩)

/-- The shapes a cursor with this frame stack has still to hand out: for each
frame from the top, the pre-order listing of the children not yet visited. -/
def remaining : List StackFrame → List Element
  | [] => []
  | current :: rest =>
    Element.preorderAll (current.group.getElements.drop current.index) ++ remaining rest

/-- The cursor after `k` calls of `next()`. -/
def advance : Nat → ElementIterator → ElementIterator
  | 0, it => it
  | k + 1, it => advance k (next it).2

/-- Successive `next()` calls up to the first `nullptr` result, which is left
out of the returned list; `none` when `fuel` calls did not reach it. -/
def drain : Nat → ElementIterator → Option (List Element)
  | 0, _ => none
  | fuel + 1, it =>
    match (next it).1 with
    | Element.null => some []
    | e =>
      match drain fuel (next it).2 with
      | none => none
      | some es => some (e :: es)

end ElementIterator

/-- What the front end writes, one constructor per message. -/
inductive Msg where
  | addedCircle (x y r : ℚ) : Msg
  | addedRectangle (x y w h : ℚ) : Msg
  | addedGroup (x y : ℚ) : Msg
  | nothingToUndo : Msg
  | undone : Msg
  | nothingToRedo : Msg
  | redone : Msg
  | iterating : Msg
  | printed (lines : List Line) : Msg
  | nullWarning : Msg
  | removed (x y : ℚ) : Msg
  | noElementFound (x y : ℚ) : Msg
  | moved (x y : ℚ) : Msg
  | copied (x y : ℚ) : Msg
  | found (lines : List Line) : Msg
deriving Repr, DecidableEq

/-- The facade `Editor` with its four data members (stack tops are list
heads) and the allocator of the memory model. -/
structure Editor where
  /-- The root group, `std::unique_ptr<Group> root_`. -/
  root_ : Element
  /-- The undo stack, top first. -/
  undoStack_ : List Command
  /-- The redo stack, top first. -/
  redoStack_ : List Command
  /-- The registry `std::vector<Group*> groups_`. -/
  groups_ : List Nat
  /-- The next address the allocator hands out. -/
  next : Nat
deriving Repr, DecidableEq

namespace Editor

/-- Constructor `Editor()`: the root group at `(0,0)`, registered in `groups_`. -/
def init : Editor :=
  ⟨Element.group 0 0 0 [], [], [], [0], 1⟩

/-- Method `executeCommand(cmd)`. -/
def executeCommand (ed : Editor) (cmd : Command) : Option Editor :=
  match cmd.execute ed.root_ ed.next with
  | none => none
  | some (cmd', root', next') =>
    some { ed with root_ := root', next := next',
                   undoStack_ := cmd' :: ed.undoStack_, redoStack_ := [] }

/-- Method `undo()`. -/
def undo (ed : Editor) : Option Editor :=
  match ed.undoStack_ with
  | [] => some ed
  | top :: rest =>
    match top.undo ed.root_ ed.next with
    | none => none
    | some (top', root', next') =>
      some { ed with root_ := root', next := next',
                     undoStack_ := rest, redoStack_ := top' :: ed.redoStack_ }

/-- Method `redo()`. -/
def redo (ed : Editor) : Option Editor :=
  match ed.redoStack_ with
  | [] => some ed
  | top :: rest =>
    match top.execute ed.root_ ed.next with
    | none => none
    | some (top', root', next') =>
      some { ed with root_ := root', next := next',
                     undoStack_ := top' :: ed.undoStack_, redoStack_ := rest }

/-- Method `undoCommand()`. -/
def undoCommand (ed : Editor) : Option (Editor × List Msg) :=
  if ed.undoStack_.isEmpty then some (ed, [Msg.nothingToUndo])
  else
    match ed.undo with
    | none => none
    | some ed' => some (ed', [Msg.undone])

/-- Method `redoCommand()`. -/
def redoCommand (ed : Editor) : Option (Editor × List Msg) :=
  if ed.redoStack_.isEmpty then some (ed, [Msg.nothingToRedo])
  else
    match ed.redo with
    | none => none
    | some ed' => some (ed', [Msg.redone])

/-- Method `addCircle(x, y, r)`. -/
def addCircle (ed : Editor) (x y r : ℚ) : Option (Editor × List Msg) :=
  match ed.root_.get with
  | none => none
  | some root =>
    match executeCommand { ed with next := ed.next + 1 }
        (Command.AddCommand root (Element.circle ed.next x y r)) with
    | none => none
    | some ed' => some (ed', [Msg.addedCircle x y r])

/-- Method `addRectangle(x, y, w, h)`. -/
def addRectangle (ed : Editor) (x y w h : ℚ) : Option (Editor × List Msg) :=
  match ed.root_.get with
  | none => none
  | some root =>
    match executeCommand { ed with next := ed.next + 1 }
        (Command.AddCommand root (Element.rectangle ed.next x y w h)) with
    | none => none
    | some ed' => some (ed', [Msg.addedRectangle x y w h])

/-- Method `addGroup(x, y)`; the returned pointer is the new entry of `groups_`. -/
def addGroup (ed : Editor) (x y : ℚ) : Option (Editor × List Msg) :=
  match ed.root_.get with
  | none => none
  | some root =>
    match executeCommand { ed with next := ed.next + 1 }
        (Command.AddCommand root (Element.group ed.next x y [])) with
    | none => none
    | some ed' => some ({ ed' with groups_ := ed'.groups_ ++ [ed.next] }, [Msg.addedGroup x y])

mutual
/-- Method `findParent(current, e)`; `none` is `nullptr`. -/
def findParent : Element → Nat → Option Nat
  | Element.group a _ _ es, e => findParentLoop a es e
  | _, _ => none
/-- The loop of `findParent` over the children of the group at address `current`. -/
def findParentLoop (current : Nat) : List Element → Nat → Option Nat
  | [], _ => none
  | child :: rest, e =>
    if child.get = some e then some current
    else if child.isGroup then
      match findParent child e with
      | some parent => some parent
      | none => findParentLoop current rest e
    else findParentLoop current rest e
end

/-- The statement `executeCommand(std::make_unique<RemoveCommand>(parent, e))`
of `removeElement`. -/
def applyRemove (ed : Editor) (parent e : Nat) : Option Editor :=
  match Command.mkRemove ed.root_ ed.next parent e with
  | none => none
  | some (cmd, next') => executeCommand { ed with next := next' } cmd

/-- The statement `executeCommand(std::make_unique<MoveToGroupCommand>(source, target, e))`
of `moveToGroup`. -/
def applyMoveToGroup (ed : Editor) (source target e : Nat) : Option Editor :=
  match Command.mkMoveToGroup ed.root_ ed.next source target e with
  | none => none
  | some (cmd, next') => executeCommand { ed with next := next' } cmd

/-- Method `removeElement(e)`; `e = none` is `nullptr`. -/
def removeElement (ed : Editor) (e : Option Nat) : Option Editor :=
  match e with
  | none => some ed
  | some e =>
    match findParent ed.root_ e with
    | none => some ed
    | some parent => applyRemove ed parent e

/-- Method `moveToGroup(e, target)`; `none` is `nullptr`. -/
def moveToGroup (ed : Editor) (e target : Option Nat) : Option Editor :=
  match e, target with
  | some e, some target =>
    match findParent ed.root_ e with
    | none => some ed
    | some source => applyMoveToGroup ed source target e
  | _, _ => some ed

/-- Method `getIterator()`. -/
def getIterator (ed : Editor) : ElementIterator :=
  ElementIterator.mk' ed.root_

/-- The loop of `iterateCommand()`: while `hasNext()`, print what `next()`
returns or the warning for `nullptr`; `none` when a print is undefined or
`fuel` rounds did not end the loop. -/
def iterateLoop : Nat → ElementIterator → Option (List Msg)
  | 0, it => if it.hasNext then none else some []
  | fuel + 1, it =>
    if it.hasNext then
      match (it.next).1 with
      | Element.null =>
        match iterateLoop fuel (it.next).2 with
        | none => none
        | some ms => some (Msg.nullWarning :: ms)
      | e =>
        match e.print 0 with
        | none => none
        | some ls =>
          match iterateLoop fuel (it.next).2 with
          | none => none
          | some ms => some (Msg.printed ls :: ms)
    else some []

/-- Method `iterateCommand()`. -/
def iterateCommand (fuel : Nat) (ed : Editor) : Option (List Msg) :=
  match iterateLoop fuel ed.getIterator with
  | none => none
  | some ms => some (Msg.iterating :: ms)

end Editor

namespace Element

/-- The data member `x` of the object owned by the pointer. -/
def x : Element → ℚ
  | null => 0
  | circle _ x _ _ => x
  | rectangle _ x _ _ _ => x
  | group _ x _ _ => x

/-- The data member `y` of the object owned by the pointer. -/
def y : Element → ℚ
  | null => 0
  | circle _ _ y _ => y
  | rectangle _ _ y _ _ => y
  | group _ _ y _ => y

mutual
/-- The addresses of all `Group` objects owned through the pointer, in pre-order. -/
def groupAddrs : Element → List Nat
  | group a _ _ es => a :: groupAddrsAll es
  | _ => []
/-- The addresses of all `Group` objects owned through a vector of pointers. -/
def groupAddrsAll : List Element → List Nat
  | [] => []
  | e :: es => groupAddrs e ++ groupAddrsAll es
end

/-- Whether the pointer owns a `Circle` or a `Rectangle`. -/
def isLeaf : Element → Bool
  | circle _ _ _ _ => true
  | rectangle _ _ _ _ _ => true
  | _ => false

end Element

namespace Editor

/-- Method `findElement(x, y)`: `root_->find(x, y)`. -/
def findElement (ed : Editor) (x y : ℚ) : Option (Option Nat) :=
  ed.root_.find x y

/-- Method `copyElement(e)` for a non-null `e`: `e->clone()`. -/
def copyElement (ed : Editor) (e : Nat) : Option (Element × Nat) :=
  match ed.root_.deref e with
  | none => none
  | some o => o.clone ed.next

/-- Method `removeCommand(iss)` after `x y` were read from the line. -/
def removeCommand (ed : Editor) (x y : ℚ) : Option (Editor × List Msg) :=
  match ed.findElement x y with
  | none => none
  | some (some e) =>
    match ed.removeElement (some e) with
    | none => none
    | some ed' => some (ed', [Msg.removed x y])
  | some none => some (ed, [Msg.noElementFound x y])

/-- Method `moveCommand(iss)` after `x y dx dy` were read from the line; the
message carries `e->x` and `e->y` read after the move. -/
def moveCommand (ed : Editor) (x y dx dy : ℚ) : Option (Editor × List Msg) :=
  match ed.findElement x y with
  | none => none
  | some (some e) =>
    match ed.executeCommand (Command.MoveCommand e dx dy) with
    | none => none
    | some ed' =>
      match ed'.root_.deref e with
      | none => none
      | some o => some (ed', [Msg.moved o.x o.y])
  | some none => some (ed, [Msg.noElementFound x y])

/-- Method `copyCommand(iss)` after `x y` were read from the line. -/
def copyCommand (ed : Editor) (x y : ℚ) : Option (Editor × List Msg) :=
  match ed.findElement x y with
  | none => none
  | some (some e) =>
    match ed.copyElement e with
    | none => none
    | some (copied, next') =>
      match ed.root_.get with
      | none => none
      | some root =>
        match executeCommand { ed with next := next' } (Command.AddCommand root copied) with
        | none => none
        | some ed' => some (ed', [Msg.copied x y])
  | some none => some (ed, [Msg.noElementFound x y])

/-- Method `findCommand(iss)` after `x y` were read from the line. -/
def findCommand (ed : Editor) (x y : ℚ) : Option (List Msg) :=
  match ed.findElement x y with
  | none => none
  | some (some e) =>
    match ed.root_.deref e with
    | none => none
    | some o =>
      match o.print 0 with
      | none => none
      | some ls => some [Msg.found ls]
  | some none => some [Msg.noElementFound x y]

end Editor

/-! ## Lemmas -/

namespace Element

theorem deref_of_get {v : Element} {a : Nat} (h : v.get = some a) : v.deref a = some v := by
  cases v <;> simp_all [get, deref]

theorem store_of_get {v : Element} {a : Nat} (w : Element) (h : v.get = some a) :
    v.store a w = w := by
  cases v <;> simp_all [get, store]

mutual
theorem deref_store : ∀ (t : Element) (a : Nat) (o v : Element),
    t.deref a = some o → v.get = some a → (t.store a v).deref a = some v
  | null, _, _, _, h, _ => by simp [deref] at h
  | circle b x y r, a, o, v, h, hv => by
    by_cases hb : b = a
    · simp [store, hb, deref_of_get hv]
    · simp [deref, hb] at h
  | rectangle b x y w' h', a, o, v, h, hv => by
    by_cases hb : b = a
    · simp [store, hb, deref_of_get hv]
    · simp [deref, hb] at h
  | group b x y es, a, o, v, h, hv => by
    by_cases hb : b = a
    · simp [store, hb, deref_of_get hv]
    · simp only [deref, hb, if_false] at h
      simp only [store, hb, if_false, deref]
      exact derefAll_storeAll es a o v h hv
theorem derefAll_storeAll : ∀ (es : List Element) (a : Nat) (o v : Element),
    derefAll es a = some o → v.get = some a → derefAll (storeAll es a v) a = some v
  | [], _, _, _, h, _ => by simp [derefAll] at h
  | e :: es, a, o, v, h, hv => by
    cases he : deref e a with
    | some o' =>
      simp only [storeAll, he, derefAll]
      rw [deref_store e a o' v he hv]
    | none =>
      simp only [derefAll, he] at h
      simp only [storeAll, he, derefAll]
      exact derefAll_storeAll es a o v h hv
end

mutual
theorem store_self : ∀ (t : Element) (a : Nat) (o : Element),
    t.deref a = some o → t.store a o = t
  | null, _, _, h => by simp [deref] at h
  | circle b x y r, a, o, h => by
    by_cases hb : b = a
    · simp [deref, hb] at h; simp [store, hb, h]
    · simp [deref, hb] at h
  | rectangle b x y w' h', a, o, h => by
    by_cases hb : b = a
    · simp [deref, hb] at h; simp [store, hb, h]
    · simp [deref, hb] at h
  | group b x y es, a, o, h => by
    by_cases hb : b = a
    · simp [deref, hb] at h; simp [store, hb, h]
    · simp only [deref, hb, if_false] at h
      simp only [store, hb, if_false]
      rw [storeAll_self es a o h]
theorem storeAll_self : ∀ (es : List Element) (a : Nat) (o : Element),
    derefAll es a = some o → storeAll es a o = es
  | [], _, _, h => by simp [derefAll] at h
  | e :: es, a, o, h => by
    cases he : deref e a with
    | some o' =>
      simp only [derefAll, he, Option.some.injEq] at h
      subst h
      simp only [storeAll, he]
      rw [store_self e a o' he]
    | none =>
      simp only [derefAll, he] at h
      simp only [storeAll, he]
      rw [storeAll_self es a o h]
end

mutual
theorem store_store : ∀ (t : Element) (a : Nat) (o v w : Element),
    t.deref a = some o → v.get = some a → (t.store a v).store a w = t.store a w
  | null, _, _, _, _, h, _ => by simp [deref] at h
  | circle b x y r, a, o, v, w, h, hv => by
    by_cases hb : b = a
    · simp [store, hb, store_of_get w hv]
    · simp [deref, hb] at h
  | rectangle b x y w' h', a, o, v, w, h, hv => by
    by_cases hb : b = a
    · simp [store, hb, store_of_get w hv]
    · simp [deref, hb] at h
  | group b x y es, a, o, v, w, h, hv => by
    by_cases hb : b = a
    · simp [store, hb, store_of_get w hv]
    · simp only [deref, hb, if_false] at h
      simp only [store, hb, if_false]
      rw [storeAll_storeAll es a o v w h hv]
theorem storeAll_storeAll : ∀ (es : List Element) (a : Nat) (o v w : Element),
    derefAll es a = some o → v.get = some a →
      storeAll (storeAll es a v) a w = storeAll es a w
  | [], _, _, _, _, h, _ => by simp [derefAll] at h
  | e :: es, a, o, v, w, h, hv => by
    cases he : deref e a with
    | some o' =>
      simp only [storeAll, he, deref_store e a o' v he hv]
      rw [store_store e a o' v w he hv]
    | none =>
      simp only [derefAll, he] at h
      simp only [storeAll, he]
      rw [storeAll_storeAll es a o v w h hv]
end

mutual
theorem clone_spec : ∀ (e : Element) (n : Nat), e.noNull = true →
    ∃ c n', e.clone n = some (c, n') ∧ c.noNull = true ∧ c.value = e.value ∧ c.get = some n ∧
      n < n' ∧ ∀ a ∈ c.addrs, n ≤ a ∧ a < n'
  | null, _, h => by simp [noNull] at h
  | circle b x y r, n, _ =>
    ⟨circle n x y r, n + 1, by simp [clone], by simp [noNull], by simp [value], by simp [get],
      by omega, by simp [addrs]⟩
  | rectangle b x y w h', n, _ =>
    ⟨rectangle n x y w h', n + 1, by simp [clone], by simp [noNull], by simp [value],
      by simp [get], by omega, by simp [addrs]⟩
  | group b x y es, n, h => by
    simp only [noNull] at h
    obtain ⟨cs, n', hc, hnn, hv, hle, ha⟩ := cloneAll_spec es (n + 1) h
    refine ⟨group n x y cs, n', ?_, ?_, ?_, ?_, ?_, ?_⟩
    · simp [clone, hc]
    · simpa [noNull] using hnn
    · simp [value, hv]
    · simp [get]
    · omega
    · intro a ha'
      simp only [addrs, List.mem_cons] at ha'
      rcases ha' with rfl | ha'
      · omega
      · have := ha a ha'
        omega
theorem cloneAll_spec : ∀ (es : List Element) (n : Nat), noNullAll es = true →
    ∃ cs n', cloneAll es n = some (cs, n') ∧ noNullAll cs = true ∧ valueAll cs = valueAll es ∧
      n ≤ n' ∧ ∀ a ∈ addrsAll cs, n ≤ a ∧ a < n'
  | [], n, _ =>
    ⟨[], n, by simp [cloneAll], by simp [noNullAll], by simp [valueAll], by omega,
      by simp [addrsAll]⟩
  | e :: es, n, h => by
    simp only [noNullAll, Bool.and_eq_true] at h
    obtain ⟨c, n1, hc, hnn, hv, _, hlt, ha⟩ := clone_spec e n h.1
    obtain ⟨cs, n2, hcs, hnns, hvs, hle, has⟩ := cloneAll_spec es n1 h.2
    refine ⟨c :: cs, n2, ?_, ?_, ?_, ?_, ?_⟩
    · simp [cloneAll, hc, hcs]
    · simp [noNullAll, hnn, hnns]
    · simp [valueAll, hv, hvs]
    · omega
    · intro a ha'
      simp only [addrsAll, List.mem_append] at ha'
      rcases ha' with ha' | ha'
      · have := ha a ha'
        omega
      · have := has a ha'
        omega
end

mutual
theorem move_spec : ∀ (e : Element) (dx dy : ℚ), e.noNull = true →
    ∃ e', e.move dx dy = some e' ∧ e'.positions = e.positions.map (shift dx dy) ∧
      e'.unplaced = e.unplaced ∧ e'.get = e.get
  | null, _, _, h => by simp [noNull] at h
  | circle b x y r, dx, dy, _ => by
    simp [move, positions, unplaced, get, shift]
  | rectangle b x y w h', dx, dy, _ => by
    simp [move, positions, unplaced, get, shift]
  | group b x y es, dx, dy, h => by
    simp only [noNull] at h
    obtain ⟨es', hm, hp, hu⟩ := moveAll_spec es dx dy h
    refine ⟨group b (x + dx) (y + dy) es', ?_, ?_, ?_, ?_⟩
    · simp [move, hm]
    · simp [positions, hp, shift]
    · simp [unplaced, hu]
    · simp [get]
theorem moveAll_spec : ∀ (es : List Element) (dx dy : ℚ), noNullAll es = true →
    ∃ es', moveAll es dx dy = some es' ∧ positionsAll es' = (positionsAll es).map (shift dx dy) ∧
      unplacedAll es' = unplacedAll es
  | [], _, _, _ => by simp [moveAll, positionsAll, unplacedAll]
  | e :: es, dx, dy, h => by
    simp only [noNullAll, Bool.and_eq_true] at h
    obtain ⟨e', hm, hp, hu, _⟩ := move_spec e dx dy h.1
    obtain ⟨es', hms, hps, hus⟩ := moveAll_spec es dx dy h.2
    refine ⟨e' :: es', ?_, ?_, ?_⟩
    · simp [moveAll, hm, hms]
    · simp [positionsAll, hp, hps]
    · simp [unplacedAll, hu, hus]
end

mutual
theorem move_back : ∀ (e e' : Element) (dx dy : ℚ),
    e.move dx dy = some e' → e'.move (-dx) (-dy) = some e
  | null, _, _, _, h => by simp [move] at h
  | circle a x y r, e', dx, dy, h => by
    simp only [move, Option.some.injEq] at h
    subst h
    simp [move]
  | rectangle a x y w h', e', dx, dy, h => by
    simp only [move, Option.some.injEq] at h
    subst h
    simp [move]
  | group a x y es, e', dx, dy, h => by
    simp only [move] at h
    cases hm : moveAll es dx dy with
    | none => simp [hm] at h
    | some es' =>
      simp only [hm, Option.some.injEq] at h
      subst h
      simp [move, moveAll_back es es' dx dy hm]
theorem moveAll_back : ∀ (es es' : List Element) (dx dy : ℚ),
    moveAll es dx dy = some es' → moveAll es' (-dx) (-dy) = some es
  | [], es', dx, dy, h => by
    simp only [moveAll, Option.some.injEq] at h
    subst h
    simp [moveAll]
  | e :: es, es', dx, dy, h => by
    simp only [moveAll] at h
    cases hm : move e dx dy with
    | none => simp [hm] at h
    | some e1 =>
      cases hm2 : moveAll es dx dy with
      | none => simp [hm, hm2] at h
      | some es1 =>
        simp only [hm, hm2, Option.some.injEq] at h
        subst h
        simp [moveAll, move_back e e1 dx dy hm, moveAll_back es es1 dx dy hm2]
end

mutual
theorem move_move : ∀ (e e1 : Element) (dx dy dx2 dy2 : ℚ),
    e.move dx dy = some e1 → e1.move dx2 dy2 = e.move (dx + dx2) (dy + dy2)
  | null, _, _, _, _, _, h => by simp [move] at h
  | circle a x y r, e1, dx, dy, dx2, dy2, h => by
    simp only [move, Option.some.injEq] at h
    subst h
    simp [move, add_assoc]
  | rectangle a x y w h', e1, dx, dy, dx2, dy2, h => by
    simp only [move, Option.some.injEq] at h
    subst h
    simp [move, add_assoc]
  | group a x y es, e1, dx, dy, dx2, dy2, h => by
    simp only [move] at h
    cases hm : moveAll es dx dy with
    | none => simp [hm] at h
    | some es' =>
      simp only [hm, Option.some.injEq] at h
      subst h
      simp [move, moveAll_moveAll es es' dx dy dx2 dy2 hm, add_assoc]
theorem moveAll_moveAll : ∀ (es es1 : List Element) (dx dy dx2 dy2 : ℚ),
    moveAll es dx dy = some es1 → moveAll es1 dx2 dy2 = moveAll es (dx + dx2) (dy + dy2)
  | [], es1, dx, dy, dx2, dy2, h => by
    simp only [moveAll, Option.some.injEq] at h
    subst h
    simp [moveAll]
  | e :: es, es', dx, dy, dx2, dy2, h => by
    simp only [moveAll] at h
    cases hm : move e dx dy with
    | none => simp [hm] at h
    | some e1 =>
      cases hm2 : moveAll es dx dy with
      | none => simp [hm, hm2] at h
      | some es1 =>
        simp only [hm, hm2, Option.some.injEq] at h
        subst h
        simp [moveAll, move_move e e1 dx dy dx2 dy2 hm, moveAll_moveAll es es1 dx dy dx2 dy2 hm2]
end

theorem descendants_of_not_group {e : Element} (h : e.isGroup = false) : e.descendants = [] := by
  cases e <;> simp_all [isGroup, descendants]

theorem descendants_eq_preorderAll (e : Element) (h : e.isGroup = true) :
    e.descendants = preorderAll e.getElements := by
  cases e <;> simp_all [isGroup, descendants, getElements]

mutual
theorem noNull_descendants : ∀ (e : Element), e.noNull = true →
    ∀ x ∈ e.descendants, x ≠ null
  | null, h => by simp [noNull] at h
  | circle .., _ => by simp [descendants]
  | rectangle .., _ => by simp [descendants]
  | group _ _ _ es, h => by
    simp only [noNull] at h
    simpa [descendants] using noNull_preorderAll es h
theorem noNull_preorderAll : ∀ (es : List Element), noNullAll es = true →
    ∀ x ∈ preorderAll es, x ≠ null
  | [], _ => by simp [preorderAll]
  | e :: es, h => by
    simp only [noNullAll, Bool.and_eq_true] at h
    intro x hx
    simp only [preorderAll, List.cons_append, List.mem_cons, List.mem_append] at hx
    rcases hx with rfl | hx | hx
    · intro hn
      rw [hn] at h
      simp [noNull] at h
    · exact noNull_descendants e h.1 x hx
    · exact noNull_preorderAll es h.2 x hx
end

mutual
theorem get_preorder : ∀ (e : Element), e.noNull = true →
    (e :: e.descendants).map get = e.addrs.map some
  | null, h => by simp [noNull] at h
  | circle .., _ => by simp [descendants, get, addrs]
  | rectangle .., _ => by simp [descendants, get, addrs]
  | group _ _ _ es, h => by
    simp only [noNull] at h
    simp [descendants, get, addrs, get_preorderAll es h]
theorem get_preorderAll : ∀ (es : List Element), noNullAll es = true →
    (preorderAll es).map get = (addrsAll es).map some
  | [], _ => by simp [preorderAll, addrsAll]
  | e :: es, h => by
    simp only [noNullAll, Bool.and_eq_true] at h
    have h1 := get_preorder e h.1
    have h2 := get_preorderAll es h.2
    simp only [List.map_cons] at h1
    simp only [preorderAll, addrsAll, List.cons_append, List.map_cons, List.map_append, h2]
    rw [← h1]
    simp
end

end Element

namespace ElementIterator

theorem nextLoop_spec : ∀ (stack : List StackFrame),
    (remaining stack = [] → nextLoop stack = (Element.null, [])) ∧
    (∀ x xs, remaining stack = x :: xs →
      (nextLoop stack).1 = x ∧ remaining (nextLoop stack).2 = xs)
  | [] => by simp [remaining, nextLoop]
  | current :: rest => by
    have ih := nextLoop_spec rest
    cases hget : current.group.getElements.get? current.index with
    | none =>
      have hdrop : current.group.getElements.drop current.index = [] := by
        rw [List.drop_eq_nil_iff]
        exact List.get?_eq_none.mp hget
      simp only [remaining, hdrop, Element.preorderAll, List.nil_append, nextLoop, hget]
      exact ih
    | some e =>
      have hlt : current.index < current.group.getElements.length := by
        by_contra hc
        rw [List.get?_eq_none.mpr (by omega)] at hget
        cases hget
      have hdrop : current.group.getElements.drop current.index
          = e :: current.group.getElements.drop (current.index + 1) := by
        rw [List.drop_eq_getElem_cons hlt]
        congr 1
        rw [List.get?_eq_get hlt] at hget
        exact Option.some.inj hget
      constructor
      · intro h
        simp [remaining, hdrop, Element.preorderAll] at h
      · intro x xs h
        simp only [remaining, hdrop, Element.preorderAll, List.cons_append, List.append_assoc,
          List.cons.injEq] at h
        obtain ⟨hx, hxs⟩ := h
        subst hx
        simp only [nextLoop, hget, true_and]
        cases hg : e.isGroup with
        | true =>
          simp only [if_true, pushGroup, remaining, List.drop_zero]
          rw [← Element.descendants_eq_preorderAll e hg]
          simpa [List.append_assoc] using hxs
        | false =>
          rw [Element.descendants_of_not_group hg] at hxs
          simpa [remaining] using hxs

theorem drain_spec : ∀ (fuel : Nat) (stack : List StackFrame),
    (∀ x ∈ remaining stack, x ≠ Element.null) → (remaining stack).length < fuel →
    drain fuel ⟨stack⟩ = some (remaining stack)
  | 0, _, _, h => by omega
  | fuel + 1, stack, hnn, hlen => by
    cases hr : remaining stack with
    | nil =>
      have := (nextLoop_spec stack).1 hr
      simp [drain, next, this]
    | cons x xs =>
      obtain ⟨h1, h2⟩ := (nextLoop_spec stack).2 x xs hr
      have hx : x ≠ Element.null := hnn x (by simp [hr])
      have hrec := drain_spec fuel (nextLoop stack).2
        (by
          intro y hy
          rw [h2] at hy
          exact hnn y (by simp [hr, hy]))
        (by
          rw [h2]
          rw [hr] at hlen
          simp at hlen
          omega)
      rw [h2] at hrec
      unfold drain
      simp only [next, h1, hrec]

end ElementIterator

namespace Element

mutual
theorem deref_get : ∀ (t : Element) (a : Nat) (o : Element),
    t.deref a = some o → o.get = some a
  | null, _, _, h => by simp [deref] at h
  | circle b x y r, a, o, h => by
    by_cases hb : b = a
    · simp only [deref, hb, if_true, Option.some.injEq] at h
      simp [← h, get]
    · simp [deref, hb] at h
  | rectangle b x y w' h', a, o, h => by
    by_cases hb : b = a
    · simp only [deref, hb, if_true, Option.some.injEq] at h
      simp [← h, get]
    · simp [deref, hb] at h
  | group b x y es, a, o, h => by
    by_cases hb : b = a
    · simp only [deref, hb, if_true, Option.some.injEq] at h
      simp [← h, get]
    · simp only [deref, hb, if_false] at h
      exact derefAll_get es a o h
theorem derefAll_get : ∀ (es : List Element) (a : Nat) (o : Element),
    derefAll es a = some o → o.get = some a
  | [], _, _, h => by simp [derefAll] at h
  | e :: es, a, o, h => by
    cases he : deref e a with
    | some o' =>
      simp only [derefAll, he, Option.some.injEq] at h
      subst h
      exact deref_get e a o' he
    | none =>
      simp only [derefAll, he] at h
      exact derefAll_get es a o h
end

theorem not_own_child (a : Nat) (x y : ℚ) (e : Element) (es : List Element) :
    e ≠ group a x y (e :: es) := by
  intro h
  have hs := congrArg sizeOf h
  simp at hs
  omega

end Element

namespace Element

theorem find_move_leaf (c : Element) (dx dy qx qy : ℚ) (h : c.isLeaf = true) :
    ∃ c', c.move dx dy = some c' ∧ c'.isLeaf = true ∧ c'.get = c.get ∧
      c'.find (qx + dx) (qy + dy) = c.find qx qy := by
  cases c with
  | null => simp [isLeaf] at h
  | group a x y es => simp [isLeaf] at h
  | circle a x y r =>
    refine ⟨circle a (x + dx) (y + dy) r, by simp [move], by simp [isLeaf], by simp [get], ?_⟩
    simp only [find, add_sub_add_right_eq_sub]
  | rectangle a x y w h' =>
    refine ⟨rectangle a (x + dx) (y + dy) w h', by simp [move], by simp [isLeaf],
      by simp [get], ?_⟩
    have e1 : x + dx + w = x + w + dx := by ring
    have e2 : y + dy + h' = y + h' + dy := by ring
    simp only [find, ge_iff_le, e1, e2, add_le_add_iff_right]

theorem findAll_moveAll_leaves : ∀ (cs : List Element) (dx dy qx qy : ℚ),
    (∀ c ∈ cs, c.isLeaf = true) →
    ∃ cs', moveAll cs dx dy = some cs' ∧ cs'.map get = cs.map get ∧
      findAll cs' (qx + dx) (qy + dy) = findAll cs qx qy ∧
      ∀ i, (cs'.get? i).bind (fun c => c.find (qx + dx) (qy + dy))
        = (cs.get? i).bind (fun c => c.find qx qy)
  | [], _, _, _, _, _ => ⟨[], by simp [moveAll], rfl, by simp [findAll], by simp⟩
  | c :: cs, dx, dy, qx, qy, h => by
    obtain ⟨c', hm, _, hg, hf⟩ := find_move_leaf c dx dy qx qy (h c (by simp))
    obtain ⟨cs', hms, hgs, hfs, his⟩ :=
      findAll_moveAll_leaves cs dx dy qx qy (fun d hd => h d (by simp [hd]))
    refine ⟨c' :: cs', by simp [moveAll, hm, hms], by simp [hg, hgs], ?_, ?_⟩
    · simp only [findAll, hf, hfs]
    · intro i
      cases i with
      | zero => simp [hf]
      | succ i => simpa using his i

end Element

namespace Element

theorem get_mem_addrs {e : Element} {a : Nat} (h : e.get = some a) : a ∈ e.addrs := by
  cases e <;> simp_all [get, addrs]

theorem addrsAll_append : ∀ (l1 l2 : List Element),
    addrsAll (l1 ++ l2) = addrsAll l1 ++ addrsAll l2
  | [], l2 => by simp [addrsAll]
  | e :: l1, l2 => by simp [addrsAll, addrsAll_append l1 l2]

theorem mem_addrsAll : ∀ (es : List Element) (c : Element) (a : Nat),
    c ∈ es → a ∈ c.addrs → a ∈ addrsAll es
  | [], _, _, h, _ => by simp at h
  | e :: es, c, a, h, ha => by
    simp only [addrsAll, List.mem_append]
    rcases List.mem_cons.mp h with rfl | h
    · exact Or.inl ha
    · exact Or.inr (mem_addrsAll es c a h ha)

mutual
theorem deref_none_of_not_mem : ∀ (t : Element) (a : Nat), a ∉ t.addrs → t.deref a = none
  | null, _, _ => by simp [deref]
  | circle b x y r, a, h => by
    simp only [addrs, List.mem_singleton] at h
    simp [deref, Ne.symm h]
  | rectangle b x y w h', a, h => by
    simp only [addrs, List.mem_singleton] at h
    simp [deref, Ne.symm h]
  | group b x y es, a, h => by
    simp only [addrs, List.mem_cons, not_or] at h
    simp only [deref, Ne.symm h.1, if_false]
    exact derefAll_none_of_not_mem es a h.2
theorem derefAll_none_of_not_mem : ∀ (es : List Element) (a : Nat),
    a ∉ addrsAll es → derefAll es a = none
  | [], _, _ => by simp [derefAll]
  | e :: es, a, h => by
    simp only [addrsAll, List.mem_append, not_or] at h
    simp only [derefAll, deref_none_of_not_mem e a h.1]
    exact derefAll_none_of_not_mem es a h.2
end

mutual
theorem deref_addrs_subset : ∀ (t : Element) (p : Nat) (o : Element),
    t.deref p = some o → ∀ a ∈ o.addrs, a ∈ t.addrs
  | null, _, _, h => by simp [deref] at h
  | circle b x y r, p, o, h => by
    by_cases hb : b = p
    · simp only [deref, hb, if_true, Option.some.injEq] at h
      subst h
      simp [hb]
    · simp [deref, hb] at h
  | rectangle b x y w h', p, o, h => by
    by_cases hb : b = p
    · simp only [deref, hb, if_true, Option.some.injEq] at h
      subst h
      simp [hb]
    · simp [deref, hb] at h
  | group b x y es, p, o, h => by
    by_cases hb : b = p
    · simp only [deref, hb, if_true, Option.some.injEq] at h
      subst h
      simp [hb]
    · simp only [deref, hb, if_false] at h
      intro a ha
      simp only [addrs, List.mem_cons]
      exact Or.inr (derefAll_addrs_subset es p o h a ha)
theorem derefAll_addrs_subset : ∀ (es : List Element) (p : Nat) (o : Element),
    derefAll es p = some o → ∀ a ∈ o.addrs, a ∈ addrsAll es
  | [], _, _, h => by simp [derefAll] at h
  | e :: es, p, o, h => by
    intro a ha
    simp only [addrsAll, List.mem_append]
    cases he : deref e p with
    | some o' =>
      simp only [derefAll, he, Option.some.injEq] at h
      subst h
      exact Or.inl (deref_addrs_subset e p o' he a ha)
    | none =>
      simp only [derefAll, he] at h
      exact Or.inr (derefAll_addrs_subset es p o h a ha)
end

mutual
theorem store_of_deref_none : ∀ (t : Element) (b : Nat) (v : Element),
    t.deref b = none → t.store b v = t
  | null, _, _, _ => by simp [store]
  | circle c x y r, b, v, h => by
    by_cases hb : c = b
    · simp [deref, hb] at h
    · simp [store, hb]
  | rectangle c x y w h', b, v, h => by
    by_cases hb : c = b
    · simp [deref, hb] at h
    · simp [store, hb]
  | group c x y es, b, v, h => by
    by_cases hb : c = b
    · simp [deref, hb] at h
    · simp only [deref, hb, if_false] at h
      simp only [store, hb, if_false]
      rw [storeAll_of_derefAll_none es b v h]
theorem storeAll_of_derefAll_none : ∀ (es : List Element) (b : Nat) (v : Element),
    derefAll es b = none → storeAll es b v = es
  | [], _, _, _ => by simp [storeAll]
  | e :: es, b, v, h => by
    cases he : deref e b with
    | some o => simp [derefAll, he] at h
    | none =>
      simp only [derefAll, he] at h
      simp only [storeAll, he]
      rw [storeAll_of_derefAll_none es b v h]
end

mutual
theorem deref_store_frame : ∀ (t : Element) (a b : Nat) (v : Element),
    (∀ ob, t.deref b = some ob → a ∉ ob.addrs) → a ∉ v.addrs →
    (∀ s, t.deref a = some s → b ∉ s.addrs) →
    (t.store b v).deref a = t.deref a
  | null, _, _, _, _, _, _ => by simp [store]
  | circle c x y r, a, b, v, h1, h2, _ => by
    by_cases hb : c = b
    · have := h1 (circle c x y r) (by simp [deref, hb])
      rw [deref_none_of_not_mem _ a this]
      simp [store, hb, deref_none_of_not_mem v a h2]
    · simp [store, hb]
  | rectangle c x y w h', a, b, v, h1, h2, _ => by
    by_cases hb : c = b
    · have := h1 (rectangle c x y w h') (by simp [deref, hb])
      rw [deref_none_of_not_mem _ a this]
      simp [store, hb, deref_none_of_not_mem v a h2]
    · simp [store, hb]
  | group c x y es, a, b, v, h1, h2, h3 => by
    by_cases hb : c = b
    · have := h1 (group c x y es) (by simp [deref, hb])
      rw [deref_none_of_not_mem _ a this]
      simp [store, hb, deref_none_of_not_mem v a h2]
    · by_cases ha : c = a
      · have hs := h3 (group c x y es) (by simp [deref, ha])
        have hn := deref_none_of_not_mem _ b hs
        rw [store_of_deref_none _ b v hn]
      · simp only [store, hb, if_false, deref, ha]
        apply derefAll_storeAll_frame es a b v
        · intro ob hob
          exact h1 ob (by simpa [deref, hb] using hob)
        · exact h2
        · intro s hs
          exact h3 s (by simpa [deref, ha] using hs)
theorem derefAll_storeAll_frame : ∀ (es : List Element) (a b : Nat) (v : Element),
    (∀ ob, derefAll es b = some ob → a ∉ ob.addrs) → a ∉ v.addrs →
    (∀ s, derefAll es a = some s → b ∉ s.addrs) →
    derefAll (storeAll es b v) a = derefAll es a
  | [], _, _, _, _, _, _ => by simp [storeAll]
  | e :: es, a, b, v, h1, h2, h3 => by
    cases he : deref e b with
    | some ob =>
      have ih := deref_store_frame e a b v
        (by
          intro ob' hob'
          exact h1 ob' (by simp [derefAll, hob']))
        h2
        (by
          intro s hs
          exact h3 s (by simp [derefAll, hs]))
      simp only [storeAll, he, derefAll, ih]
    | none =>
      simp only [storeAll, he, derefAll]
      cases hea : deref e a with
      | some s => rfl
      | none =>
        simp only
        apply derefAll_storeAll_frame es a b v
        · intro ob hob
          exact h1 ob (by simp [derefAll, he, hob])
        · exact h2
        · intro s hs
          exact h3 s (by simp [derefAll, hea, hs])
end

mutual
theorem move_addrs : ∀ (e e' : Element) (dx dy : ℚ), e.move dx dy = some e' → e'.addrs = e.addrs
  | null, _, _, _, h => by simp [move] at h
  | circle a x y r, e', dx, dy, h => by
    simp only [move, Option.some.injEq] at h
    subst h
    simp [addrs]
  | rectangle a x y w h', e', dx, dy, h => by
    simp only [move, Option.some.injEq] at h
    subst h
    simp [addrs]
  | group a x y es, e', dx, dy, h => by
    simp only [move] at h
    cases hm : moveAll es dx dy with
    | none => simp [hm] at h
    | some es' =>
      simp only [hm, Option.some.injEq] at h
      subst h
      simp [addrs, moveAll_addrs es es' dx dy hm]
theorem moveAll_addrs : ∀ (es es' : List Element) (dx dy : ℚ),
    moveAll es dx dy = some es' → addrsAll es' = addrsAll es
  | [], es', dx, dy, h => by
    simp only [moveAll, Option.some.injEq] at h
    subst h
    rfl
  | e :: es, es', dx, dy, h => by
    simp only [moveAll] at h
    cases hm : move e dx dy with
    | none => simp [hm] at h
    | some e1 =>
      cases hm2 : moveAll es dx dy with
      | none => simp [hm, hm2] at h
      | some es1 =>
        simp only [hm, hm2, Option.some.injEq] at h
        subst h
        simp [addrsAll, move_addrs e e1 dx dy hm, moveAll_addrs es es1 dx dy hm2]
end

mutual
theorem print_value : ∀ (e : Element) (k : Nat), e.value.print k = e.print k
  | null, _ => by simp [value, print]
  | circle .., _ => by simp [value, print]
  | rectangle .., _ => by simp [value, print]
  | group _ _ _ es, k => by simp [value, print, printAll_valueAll es (k + 2)]
theorem printAll_valueAll : ∀ (es : List Element) (k : Nat),
    printAll (valueAll es) k = printAll es k
  | [], _ => by simp [valueAll, printAll]
  | e :: es, k => by simp [valueAll, printAll, print_value e k, printAll_valueAll es k]
end

end Element

namespace Editor

open Element

theorem addrsAll_getElements_subset (t : Element) (a : Nat)
    (h : a ∈ addrsAll t.getElements) : a ∈ t.addrs := by
  cases t <;> simp_all [getElements, addrs, addrsAll]

mutual
theorem findParent_none : ∀ (t : Element) (e : Nat),
    e ∉ addrsAll t.getElements → findParent t e = none
  | Element.null, _, _ => by simp [findParent]
  | Element.circle .., _, _ => by simp [findParent]
  | Element.rectangle .., _, _ => by simp [findParent]
  | Element.group b x y es, e, h => by
    simp only [getElements] at h
    simp only [findParent]
    exact findParentLoop_none b es e h
theorem findParentLoop_none : ∀ (cur : Nat) (es : List Element) (e : Nat),
    e ∉ addrsAll es → findParentLoop cur es e = none
  | _, [], _, _ => by simp [findParentLoop]
  | cur, child :: rest, e, h => by
    simp only [addrsAll, List.mem_append, not_or] at h
    have hget : child.get ≠ some e := fun hg => h.1 (get_mem_addrs hg)
    have hsub : findParent child e = none :=
      findParent_none child e (fun hm => h.1 (addrsAll_getElements_subset child e hm))
    have hrest := findParentLoop_none cur rest e h.2
    simp [findParentLoop, hget, hsub, hrest]
end

theorem findParentLoop_own : ∀ (cur : Nat) (es : List Element) (c : Element) (e : Nat),
    (addrsAll es).Nodup → c ∈ es → c.get = some e → findParentLoop cur es e = some cur
  | _, [], _, _, _, h, _ => by simp at h
  | cur, child :: rest, c, e, hnd, hc, hg => by
    by_cases hch : child.get = some e
    · simp [findParentLoop, hch]
    · have hcr : c ∈ rest := by
        rcases List.mem_cons.mp hc with rfl | h
        · exact absurd hg hch
        · exact h
      simp only [addrsAll] at hnd
      have hmem : e ∈ addrsAll rest := mem_addrsAll rest c e hcr (get_mem_addrs hg)
      have hnot : e ∉ child.addrs := fun hm =>
        (List.disjoint_of_nodup_append hnd) hm hmem
      have hsub : findParent child e = none :=
        findParent_none child e (fun hm => hnot (addrsAll_getElements_subset child e hm))
      have hrest := findParentLoop_own cur rest c e (List.Nodup.of_append_right hnd) hcr hg
      simp [findParentLoop, hch, hsub, hrest]

theorem deref_group_isGroup (t : Element) (p : Nat) (px py : ℚ) (cs : List Element)
    (h : t.deref p = some (group p px py cs)) : t.isGroup = true := by
  cases t with
  | null => simp [deref] at h
  | circle b x y r =>
    by_cases hb : b = p <;> simp [deref, hb] at h
  | rectangle b x y w h' =>
    by_cases hb : b = p <;> simp [deref, hb] at h
  | group b x y es => simp [isGroup]

theorem deref_children_subset (t : Element) (p : Nat) (px py : ℚ) (cs : List Element)
    (h : t.deref p = some (group p px py cs)) :
    ∀ a ∈ addrsAll cs, a ∈ addrsAll t.getElements := by
  cases t with
  | null => simp [deref] at h
  | circle b x y r =>
    by_cases hb : b = p <;> simp [deref, hb] at h
  | rectangle b x y w h' =>
    by_cases hb : b = p <;> simp [deref, hb] at h
  | group b x y es =>
    intro a ha
    by_cases hb : b = p
    · simp only [deref, hb, if_true, Option.some.injEq, group.injEq] at h
      simp only [getElements]
      rw [h.2.2.2]
      exact ha
    · simp only [deref, hb, if_false] at h
      simp only [getElements]
      exact derefAll_addrs_subset es p _ h a (by simp [addrs, ha])

mutual
theorem findParent_deep : ∀ (t : Element) (p : Nat) (px py : ℚ) (cs : List Element)
    (c : Element) (e : Nat), t.addrs.Nodup → t.deref p = some (group p px py cs) →
    c ∈ cs → c.get = some e → findParent t e = some p
  | Element.null, _, _, _, _, _, _, _, h, _, _ => by simp [deref] at h
  | Element.circle b x y r, p, _, _, _, _, _, _, h, _, _ => by
    by_cases hb : b = p <;> simp [deref, hb] at h
  | Element.rectangle b x y w h', p, _, _, _, _, _, _, h, _, _ => by
    by_cases hb : b = p <;> simp [deref, hb] at h
  | Element.group b x y es, p, px, py, cs, c, e, hnd, h, hc, hg => by
    simp only [addrs, List.nodup_cons] at hnd
    by_cases hb : b = p
    · simp only [deref, hb, if_true, Option.some.injEq, group.injEq] at h
      simp only [findParent, hb]
      rw [h.2.2.2]
      rw [h.2.2.2] at hnd
      exact findParentLoop_own p cs c e hnd.2 hc hg
    · simp only [deref, hb, if_false] at h
      simp only [findParent]
      exact findParentLoop_deep b es p px py cs c e hnd.2 h hc hg
theorem findParentLoop_deep : ∀ (cur : Nat) (es : List Element) (p : Nat) (px py : ℚ)
    (cs : List Element) (c : Element) (e : Nat), (addrsAll es).Nodup →
    derefAll es p = some (group p px py cs) → c ∈ cs → c.get = some e →
    findParentLoop cur es e = some p
  | _, [], _, _, _, _, _, _, _, h, _, _ => by simp [derefAll] at h
  | cur, child :: rest, p, px, py, cs, c, e, hnd, h, hc, hg => by
    simp only [addrsAll] at hnd
    have hecs : e ∈ addrsAll cs := mem_addrsAll cs c e hc (get_mem_addrs hg)
    cases hd : deref child p with
    | some o =>
      simp only [derefAll, hd, Option.some.injEq] at h
      subst h
      have hgrp := deref_group_isGroup child p px py cs hd
      have hin : e ∈ addrsAll child.getElements :=
        deref_children_subset child p px py cs hd e hecs
      have hcn : child.addrs.Nodup := List.Nodup.of_append_left hnd
      have hget : child.get ≠ some e := by
        intro hge
        cases child with
        | null => simp [isGroup] at hgrp
        | circle _ _ _ _ => simp [isGroup] at hgrp
        | rectangle _ _ _ _ _ => simp [isGroup] at hgrp
        | group b x y ces =>
          simp only [Element.get, Option.some.injEq] at hge
          simp only [getElements] at hin
          simp only [addrs, List.nodup_cons] at hcn
          rw [hge] at hcn
          exact hcn.1 hin
      have ih := findParent_deep child p px py cs c e hcn hd hc hg
      simp [findParentLoop, hget, hgrp, ih]
    | none =>
      simp only [derefAll, hd] at h
      have hmem : e ∈ addrsAll rest :=
        derefAll_addrs_subset rest p _ h e (by simp [addrs, hecs])
      have hnot : e ∉ child.addrs := fun hm =>
        (List.disjoint_of_nodup_append hnd) hm hmem
      have hget : child.get ≠ some e := fun hge => hnot (get_mem_addrs hge)
      have hsub : findParent child e = none :=
        findParent_none child e (fun hm => hnot (addrsAll_getElements_subset child e hm))
      have ih := findParentLoop_deep cur rest p px py cs c e
        (List.Nodup.of_append_right hnd) h hc hg
      simp [findParentLoop, hget, hsub, ih]
end

end Editor

namespace Element

mutual
theorem mem_descendants_addr : ∀ (t x : Element) (b : Nat),
    x ∈ t.descendants → x.get = some b → b ∈ addrsAll t.getElements
  | null, _, _, h, _ => by simp [descendants] at h
  | circle .., _, _, h, _ => by simp [descendants] at h
  | rectangle .., _, _, h, _ => by simp [descendants] at h
  | group _ _ _ es, x, b, h, hg => by
    simp only [descendants] at h
    simp only [getElements]
    exact mem_preorderAll_addr es x b h hg
theorem mem_preorderAll_addr : ∀ (es : List Element) (x : Element) (b : Nat),
    x ∈ preorderAll es → x.get = some b → b ∈ addrsAll es
  | [], _, _, h, _ => by simp [preorderAll] at h
  | e :: es, x, b, h, hg => by
    simp only [preorderAll, List.cons_append, List.mem_cons, List.mem_append] at h
    simp only [addrsAll, List.mem_append]
    rcases h with rfl | h | h
    · exact Or.inl (get_mem_addrs hg)
    · exact Or.inl (Editor.addrsAll_getElements_subset e b (mem_descendants_addr e x b h hg))
    · exact Or.inr (mem_preorderAll_addr es x b h hg)
end

end Element

namespace ElementIterator

theorem remaining_advance : ∀ (k : Nat) (stack : List StackFrame),
    remaining (advance k ⟨stack⟩).stack_ = (remaining stack).drop k
  | 0, _ => by simp [advance]
  | k + 1, stack => by
    simp only [advance, next]
    rw [remaining_advance k (nextLoop stack).2]
    cases hr : remaining stack with
    | nil =>
      have := (nextLoop_spec stack).1 hr
      simp [this, remaining]
    | cons x xs =>
      have := ((nextLoop_spec stack).2 x xs hr).2
      simp [this]

theorem next_null_or_remaining (stack : List StackFrame) :
    (nextLoop stack).1 = Element.null ∨ (nextLoop stack).1 ∈ remaining stack := by
  cases hr : remaining stack with
  | nil =>
    have := (nextLoop_spec stack).1 hr
    simp [this]
  | cons x xs =>
    have := ((nextLoop_spec stack).2 x xs hr).1
    simp [this]

theorem next_advance_not_root (a : Nat) (x y : ℚ) (cs : List Element) (k : Nat)
    (hnd : (Element.group a x y cs).addrs.Nodup) :
    (next (advance k (mk' (Element.group a x y cs)))).1.get ≠ some a := by
  have hrem : remaining (mk' (Element.group a x y cs)).stack_
      = Element.preorderAll cs := by
    simp [mk', pushGroup, remaining, Element.getElements]
  have hk := remaining_advance k (mk' (Element.group a x y cs)).stack_
  rw [hrem] at hk
  simp only [Element.addrs, List.nodup_cons] at hnd
  rcases next_null_or_remaining (advance k (mk' (Element.group a x y cs))).stack_ with h | h
  · simp [next, h, Element.get]
  · intro hg
    have hmem : (nextLoop (advance k (mk' (Element.group a x y cs))).stack_).1
        ∈ Element.preorderAll cs := by
      have h' := h
      change _ ∈ remaining (advance k ⟨(mk' (Element.group a x y cs)).stack_⟩).stack_ at h'
      rw [hk] at h'
      exact List.mem_of_mem_drop h'
    exact hnd.1 (Element.mem_preorderAll_addr cs _ a hmem hg)

end ElementIterator

namespace Editor

/-- After `add_circle 10 10 5` and the removal of the circle (address 1), let the
allocator hand the address `m` to the duplicate made by the undo.  The redo
compares the children with the stale `element_`: it removes the duplicate
when `m` is the address the removed circle had, and leaves it otherwise. -/
theorem remove_undo_redo_by_allocator (m : Nat) :
    ((Editor.undo (Editor.mk (Element.group 0 0 0 [])
        [Command.RemoveCommand 0 1 (Element.circle 2 10 10 5), Command.AddCommand 0 Element.null]
        [] [0] m)).bind Editor.redo).map Editor.root_
      = some (if m = 1 then Element.group 0 0 0 []
          else Element.group 0 0 0 [Element.circle m 10 10 5]) := by
  by_cases hm : m = 1
  · subst hm
    decide!
  · simp [Editor.undo, Editor.redo, Command.undo, Command.execute, Element.clone,
      Element.invoke, Element.deref, Element.store, Group.add, Group.remove, Element.get, hm]

end Editor

/-! ## The claims -/

open Element Command

/-- C1 (undo/redo inverse law), evaluated at the shortest edit sequence: one Add
of a circle to the empty scene.  Before the undo the scene renders as the root
with the circle.  One undo followed by one redo returns a scene whose root holds
the circle and an empty owning pointer, and the render of that scene is
undefined (`print` is called through the empty pointer). -/
theorem add_undo_redo_breaks_render :
    (Editor.init.addCircle 10 10 5).bind (fun p => p.1.root_.print 0)
        = some [Line.group 0 0 0, Line.circle 2 10 10 5] ∧
    (((Editor.init.addCircle 10 10 5).bind (fun p => p.1.undo)).bind Editor.redo).map
        Editor.root_ = some (group 0 0 0 [circle 1 10 10 5, null]) ∧
    (((Editor.init.addCircle 10 10 5).bind (fun p => p.1.undo)).bind Editor.redo).bind
        (fun ed => ed.root_.print 0) = none := by
  decide!

/-- C2 (Add reversal), evaluated on the empty root group and a circle:
`AddCommand::execute` leaves `element_` empty, so `AddCommand::undo` asks the
target to remove `nullptr` and the circle stays a child of the target. -/
theorem add_then_undo_keeps_element :
    (AddCommand 0 (circle 1 10 10 5)).execute (group 0 0 0 []) 2
        = some (AddCommand 0 null, group 0 0 0 [circle 1 10 10 5], 2) ∧
    (AddCommand 0 null).undo (group 0 0 0 [circle 1 10 10 5]) 2
        = some (AddCommand 0 null, group 0 0 0 [circle 1 10 10 5], 2) := by
  decide!

/-- C3 (redo invalidation): whenever `executeCommand` has applied an edit, the
redo stack is empty, `redoCommand` reports that there is nothing to redo and
returns the editor unchanged, and so does `redo`. -/
theorem executeCommand_invalidates_redo (ed ed' : Editor) (cmd : Command)
    (h : ed.executeCommand cmd = some ed') :
    ed'.redoStack_ = [] ∧ ed'.redoCommand = some (ed', [Msg.nothingToRedo]) ∧
      ed'.redo = some ed' := by
  have hr : ed'.redoStack_ = [] := by
    unfold Editor.executeCommand at h
    cases hx : cmd.execute ed.root_ ed.next with
    | none => simp [hx] at h
    | some r =>
      simp only [hx, Option.some.injEq] at h
      rw [← h]
  refine ⟨hr, ?_, ?_⟩
  · simp [Editor.redoCommand, hr]
  · simp [Editor.redo, hr]

/-- C3 witness: after adding a circle and undoing (redo stack not empty), a new Add
is applied through `executeCommand`. -/
theorem executeCommand_invalidates_redo_witness :
    (Editor.mk (group 0 0 0 [circle 1 10 10 5]) [] [AddCommand 0 null] [0] 3).executeCommand
        (AddCommand 0 (rectangle 2 2 2 3 4))
      = some (Editor.mk (group 0 0 0 [circle 1 10 10 5, rectangle 2 2 2 3 4])
          [AddCommand 0 null] [] [0] 3) ∧
    ((Editor.mk (group 0 0 0 [circle 1 10 10 5, rectangle 2 2 2 3 4])
          [AddCommand 0 null] [] [0] 3).redoStack_ = [] ∧
      (Editor.mk (group 0 0 0 [circle 1 10 10 5, rectangle 2 2 2 3 4])
          [AddCommand 0 null] [] [0] 3).redoCommand
        = some (Editor.mk (group 0 0 0 [circle 1 10 10 5, rectangle 2 2 2 3 4])
            [AddCommand 0 null] [] [0] 3, [Msg.nothingToRedo]) ∧
      (Editor.mk (group 0 0 0 [circle 1 10 10 5, rectangle 2 2 2 3 4])
          [AddCommand 0 null] [] [0] 3).redo
        = some (Editor.mk (group 0 0 0 [circle 1 10 10 5, rectangle 2 2 2 3 4])
            [AddCommand 0 null] [] [0] 3)) :=
  ⟨by decide!,
    executeCommand_invalidates_redo
      (Editor.mk (group 0 0 0 [circle 1 10 10 5]) [] [AddCommand 0 null] [0] 3)
      (Editor.mk (group 0 0 0 [circle 1 10 10 5, rectangle 2 2 2 3 4])
        [AddCommand 0 null] [] [0] 3)
      (AddCommand 0 (rectangle 2 2 2 3 4)) (by decide!)⟩

/-- C6 (Relocate reversal), evaluated on the root holding a circle (address 1) and
an empty group (address 2): relocating the circle into the group and undoing
leaves the duplicate made by the apply (address 4) inside the target group,
next to the fresh duplicate (address 5) that the undo added to the source. -/
theorem relocate_then_undo_keeps_duplicate :
    ((Editor.init.addCircle 10 10 5).bind (fun p => p.1.addGroup 5 5)).map (fun p => p.1.root_)
        = some (group 0 0 0 [circle 1 10 10 5, group 2 5 5 []]) ∧
    (((Editor.init.addCircle 10 10 5).bind (fun p => p.1.addGroup 5 5)).bind
        (fun p => p.1.moveToGroup (some 1) (some 2))).map Editor.root_
        = some (group 0 0 0 [group 2 5 5 [circle 4 10 10 5]]) ∧
    ((((Editor.init.addCircle 10 10 5).bind (fun p => p.1.addGroup 5 5)).bind
        (fun p => p.1.moveToGroup (some 1) (some 2))).bind Editor.undo).map Editor.root_
        = some (group 0 0 0 [group 2 5 5 [circle 4 10 10 5], circle 5 10 10 5]) := by
  decide!

/-- C7 (move round trip): for an object `e` without empty pointers, `move(dx, dy)`
succeeds, adds `(dx, dy)` to the position of `e` and of every descendant, and
changes nothing else (identities, kinds, sizes, nesting, child order); moving
the result by `(-dx, -dy)` gives `e` back.  When `a` points to `e` in the
scene, `MoveCommand::execute` replaces `e` by the moved object and
`MoveCommand::undo` then restores the scene exactly. -/
theorem move_round_trip (root e : Element) (a n : Nat) (dx dy : ℚ)
    (hnn : e.noNull = true) (ha : root.deref a = some e) :
    ∃ e', e.move dx dy = some e' ∧
      e'.positions = e.positions.map (shift dx dy) ∧
      e'.unplaced = e.unplaced ∧
      e'.move (-dx) (-dy) = some e ∧
      (MoveCommand a dx dy).execute root n = some (MoveCommand a dx dy, root.store a e', n) ∧
      (MoveCommand a dx dy).undo (root.store a e') n = some (MoveCommand a dx dy, root, n) := by
  obtain ⟨e', hm, hp, hu, hg⟩ := move_spec e dx dy hnn
  have hback := move_back e e' dx dy hm
  have hget : e'.get = some a := by rw [hg]; exact deref_get _ _ _ ha
  have hd : (root.store a e').deref a = some e' := deref_store _ _ _ _ ha hget
  have hs : (root.store a e').store a e = root := by
    rw [store_store _ _ _ _ _ ha hget, store_self _ _ _ ha]
  refine ⟨e', hm, hp, hu, hback, ?_, ?_⟩
  · simp [execute, invoke, ha, hm]
  · simp [undo, invoke, hd, hback, hs]

/-- C7 witness: a group with a nested group is moved by `(5, -1/2)` in a scene. -/
theorem move_round_trip_witness :
    ∃ e', (group 2 5 5 [rectangle 3 1 1 2 2, group 4 0 1 [circle 5 1 1 1]]).move 5 (-1 / 2)
        = some e' ∧
      e'.positions = (group 2 5 5 [rectangle 3 1 1 2 2, group 4 0 1 [circle 5 1 1 1]]).positions.map
        (shift 5 (-1 / 2)) ∧
      e'.unplaced = (group 2 5 5 [rectangle 3 1 1 2 2, group 4 0 1 [circle 5 1 1 1]]).unplaced ∧
      e'.move (-5) (-(-1 / 2))
        = some (group 2 5 5 [rectangle 3 1 1 2 2, group 4 0 1 [circle 5 1 1 1]]) ∧
      (MoveCommand 2 5 (-1 / 2)).execute
          (group 0 0 0 [circle 1 10 10 5,
            group 2 5 5 [rectangle 3 1 1 2 2, group 4 0 1 [circle 5 1 1 1]]]) 6
        = some (MoveCommand 2 5 (-1 / 2),
            (group 0 0 0 [circle 1 10 10 5,
              group 2 5 5 [rectangle 3 1 1 2 2, group 4 0 1 [circle 5 1 1 1]]]).store 2 e', 6) ∧
      (MoveCommand 2 5 (-1 / 2)).undo
          ((group 0 0 0 [circle 1 10 10 5,
            group 2 5 5 [rectangle 3 1 1 2 2, group 4 0 1 [circle 5 1 1 1]]]).store 2 e') 6
        = some (MoveCommand 2 5 (-1 / 2),
            group 0 0 0 [circle 1 10 10 5,
              group 2 5 5 [rectangle 3 1 1 2 2, group 4 0 1 [circle 5 1 1 1]]], 6) :=
  move_round_trip
    (group 0 0 0 [circle 1 10 10 5,
      group 2 5 5 [rectangle 3 1 1 2 2, group 4 0 1 [circle 5 1 1 1]]])
    (group 2 5 5 [rectangle 3 1 1 2 2, group 4 0 1 [circle 5 1 1 1]]) 2 6 5 (-1 / 2)
    (by decide!) (by decide!)

/-- C8 (translate composition): for an object without empty pointers, in
particular a group with descendants at any depth, moving by `(dx, dy)` and
then by `(dx2, dy2)` succeeds and yields the same tree as one move by
`(dx + dx2, dy + dy2)`. -/
theorem translate_composition (e : Element) (dx dy dx2 dy2 : ℚ) (hnn : e.noNull = true) :
    ∃ e1 e2, e.move dx dy = some e1 ∧ e1.move dx2 dy2 = some e2 ∧
      e.move (dx + dx2) (dy + dy2) = some e2 := by
  obtain ⟨e1, h1, _⟩ := move_spec e dx dy hnn
  obtain ⟨e2, h2, _⟩ := move_spec e (dx + dx2) (dy + dy2) hnn
  exact ⟨e1, e2, h1, by rw [move_move e e1 dx dy dx2 dy2 h1, h2], h2⟩

/-- C8 witness: a group holding a rectangle and a nested group, moved by `(1, 2)`
and then by `(1/2, -3)`. -/
theorem translate_composition_witness :
    ∃ e1 e2,
      (group 2 5 5 [rectangle 3 1 1 2 2, group 4 0 1 [circle 5 1 1 1]]).move 1 2 = some e1 ∧
      e1.move (1 / 2) (-3) = some e2 ∧
      (group 2 5 5 [rectangle 3 1 1 2 2, group 4 0 1 [circle 5 1 1 1]]).move (1 + 1 / 2) (2 + -3)
        = some e2 :=
  translate_composition (group 2 5 5 [rectangle 3 1 1 2 2, group 4 0 1 [circle 5 1 1 1]])
    1 2 (1 / 2) (-3) (by decide!)

/-- C9 (traversal completeness): for a root group whose tree has no empty owning
pointer, the successive `next()` results of a fresh cursor up to the first
`nullptr` are exactly the pre-order listing of the root's descendants (every
group before its own children, siblings in vector order); the `nullptr` is
reached within one call more than there are descendants; no listed shape is
null; the identities handed out are exactly the addresses below the root, in
order; and when identities in the tree are unique no shape is listed twice. -/
theorem traversal_complete (a : Nat) (x y : ℚ) (es : List Element) (fuel : Nat)
    (hwf : noNullAll es = true)
    (hfuel : (descendants (group a x y es)).length < fuel) :
    ElementIterator.drain fuel (ElementIterator.mk' (group a x y es))
        = some (descendants (group a x y es)) ∧
      (∀ e ∈ descendants (group a x y es), e ≠ null) ∧
      (descendants (group a x y es)).map Element.get = (addrsAll es).map some ∧
      ((group a x y es).addrs.Nodup → (descendants (group a x y es)).Nodup) := by
  have hrem : ElementIterator.remaining [⟨group a x y es, 0⟩] = descendants (group a x y es) := by
    simp [ElementIterator.remaining, getElements, descendants]
  have hnn : ∀ e ∈ descendants (group a x y es), e ≠ null := by
    simpa [descendants] using noNull_preorderAll es hwf
  have hget : (descendants (group a x y es)).map Element.get = (addrsAll es).map some := by
    simpa [descendants] using get_preorderAll es hwf
  refine ⟨?_, hnn, hget, ?_⟩
  · have := ElementIterator.drain_spec fuel [⟨group a x y es, 0⟩]
      (by rw [hrem]; exact hnn) (by rw [hrem]; exact hfuel)
    rw [hrem] at this
    exact this
  · intro hnd
    have h1 : (addrsAll es).Nodup := by
      simp only [addrs, List.nodup_cons] at hnd
      exact hnd.2
    have h2 : ((addrsAll es).map some).Nodup :=
      h1.map (Option.some_injective _)
    rw [← hget] at h2
    exact h2.of_map _

/-- C9 witness: a root with a rectangle, a group holding a circle and a nested empty
group, and a circle. -/
theorem traversal_complete_witness :
    ElementIterator.drain 6 (ElementIterator.mk'
        (group 0 0 0 [rectangle 1 2 2 3 4, group 2 5 5 [circle 3 1 1 1, group 4 0 0 []],
          circle 5 10 10 5]))
        = some (descendants (group 0 0 0 [rectangle 1 2 2 3 4,
            group 2 5 5 [circle 3 1 1 1, group 4 0 0 []], circle 5 10 10 5])) ∧
      (∀ e ∈ descendants (group 0 0 0 [rectangle 1 2 2 3 4,
            group 2 5 5 [circle 3 1 1 1, group 4 0 0 []], circle 5 10 10 5]), e ≠ null) ∧
      (descendants (group 0 0 0 [rectangle 1 2 2 3 4,
            group 2 5 5 [circle 3 1 1 1, group 4 0 0 []], circle 5 10 10 5])).map Element.get
        = (addrsAll [rectangle 1 2 2 3 4, group 2 5 5 [circle 3 1 1 1, group 4 0 0 []],
            circle 5 10 10 5]).map some ∧
      ((group 0 0 0 [rectangle 1 2 2 3 4, group 2 5 5 [circle 3 1 1 1, group 4 0 0 []],
            circle 5 10 10 5]).addrs.Nodup →
        (descendants (group 0 0 0 [rectangle 1 2 2 3 4,
            group 2 5 5 [circle 3 1 1 1, group 4 0 0 []], circle 5 10 10 5])).Nodup) :=
  traversal_complete 0 0 0
    [rectangle 1 2 2 3 4, group 2 5 5 [circle 3 1 1 1, group 4 0 0 []], circle 5 10 10 5] 6
    (by decide!) (by decide!)

/-- C10, as stated, fails on the scene of the scenario: the first `next()` of a
fresh cursor returns the rectangle, not the root, and the traversal hands out
one shape, not the two shapes root and rectangle. -/
theorem traversal_does_not_yield_root :
    (ElementIterator.next (ElementIterator.mk' (group 0 0 0 [rectangle 1 2 2 3 4]))).1
        = rectangle 1 2 2 3 4 ∧
    (ElementIterator.next (ElementIterator.mk' (group 0 0 0 [rectangle 1 2 2 3 4]))).1
        ≠ group 0 0 0 [rectangle 1 2 2 3 4] ∧
    ElementIterator.drain 3 (ElementIterator.mk' (group 0 0 0 [rectangle 1 2 2 3 4]))
        ≠ some [group 0 0 0 [rectangle 1 2 2 3 4], rectangle 1 2 2 3 4] := by
  decide!

/-- C10 as amended: the first shape handed out by a fresh cursor over a root with
at least one child is the root's first child, which is never the root itself;
in a tree with unique identities no `next()` call, after any number `k` of
earlier calls, returns a pointer to the root; on the scene of the scenario
the traversal hands out exactly one shape, the rectangle, and
`iterateCommand` prints the rectangle (followed by the warning for the final
`nullptr`). -/
theorem traversal_starts_at_first_child (a : Nat) (x y : ℚ) (e : Element) (es : List Element) :
    (ElementIterator.next (ElementIterator.mk' (group a x y (e :: es)))).1 = e ∧
    e ≠ group a x y (e :: es) ∧
    (∀ (cs : List Element) (k : Nat), (group a x y cs).addrs.Nodup →
      (ElementIterator.next
        (ElementIterator.advance k (ElementIterator.mk' (group a x y cs)))).1.get ≠ some a) ∧
    ElementIterator.drain 2 (ElementIterator.mk' (group 0 0 0 [rectangle 1 2 2 3 4]))
        = some [rectangle 1 2 2 3 4] ∧
    Editor.iterateCommand 2 (Editor.mk (group 0 0 0 [rectangle 1 2 2 3 4]) [] [] [0] 2)
        = some [Msg.iterating, Msg.printed [Line.rectangle 0 2 2 3 4], Msg.nullWarning] := by
  refine ⟨?_, not_own_child a x y e es,
    fun cs k hnd => ElementIterator.next_advance_not_root a x y cs k hnd,
    by decide!, by decide!⟩
  simp [ElementIterator.next, ElementIterator.mk', ElementIterator.pushGroup,
    ElementIterator.nextLoop, getElements]

/-- C10 witness: on a root (address 0) holding a rectangle and a group with a
circle, whose identities are unique, the first `next()` returns the rectangle
and the fourth call (after three earlier ones, at the end of the tree) does
not return the root either. -/
theorem traversal_starts_at_first_child_witness :
    (ElementIterator.next (ElementIterator.mk'
        (group 0 0 0 [rectangle 1 2 2 3 4, group 2 5 5 [circle 3 1 1 1]]))).1
      = rectangle 1 2 2 3 4 ∧
    (ElementIterator.next (ElementIterator.advance 3 (ElementIterator.mk'
        (group 0 0 0 [rectangle 1 2 2 3 4, group 2 5 5 [circle 3 1 1 1]])))).1.get ≠ some 0 ∧
    (ElementIterator.next (ElementIterator.advance 1 (ElementIterator.mk'
        (group 0 0 0 [rectangle 1 2 2 3 4, group 2 5 5 [circle 3 1 1 1]])))).1.get ≠ some 0 :=
  ⟨(traversal_starts_at_first_child 0 0 0 (rectangle 1 2 2 3 4)
      [group 2 5 5 [circle 3 1 1 1]]).1,
    (traversal_starts_at_first_child 0 0 0 (rectangle 1 2 2 3 4)
      [group 2 5 5 [circle 3 1 1 1]]).2.2.1
      [rectangle 1 2 2 3 4, group 2 5 5 [circle 3 1 1 1]] 3 (by decide!),
    (traversal_starts_at_first_child 0 0 0 (rectangle 1 2 2 3 4)
      [group 2 5 5 [circle 3 1 1 1]]).2.2.1
      [rectangle 1 2 2 3 4, group 2 5 5 [circle 3 1 1 1]] 1 (by decide!)⟩

/-- C11, as stated, fails: after adding the circle at `(10,10)` with radius 5 and
moving it by `(5,0)`, `findElement(10, 10)` returns the circle, not `nullptr`. -/
theorem find_at_old_centre_still_hits :
    ((Editor.init.addCircle 10 10 5).bind (fun p => p.1.moveCommand 10 10 5 0)).bind
        (fun p => p.1.findElement 10 10) = some (some 1) ∧
    ((Editor.init.addCircle 10 10 5).bind (fun p => p.1.moveCommand 10 10 5 0)).bind
        (fun p => p.1.findElement 10 10) ≠ some none := by
  decide!

/-- C11 as amended: in the scenario the move succeeds and puts the circle at
`(15,10)`; `findElement(15, 10)` returns the circle, and `findElement(10, 10)`
returns it as well, because `(10,10)` lies on the boundary of the moved circle
(squared distance 25 = radius squared, and `Circle::find` tests `<=`); a point
farther away than the radius, `(9,10)`, returns `nullptr`. -/
theorem move_scenario_boundary_included :
    ((Editor.init.addCircle 10 10 5).bind (fun p => p.1.moveCommand 10 10 5 0)).map
        (fun p => (p.1.root_, p.2)) = some (group 0 0 0 [circle 1 15 10 5], [Msg.moved 15 10]) ∧
    ((Editor.init.addCircle 10 10 5).bind (fun p => p.1.moveCommand 10 10 5 0)).bind
        (fun p => p.1.findElement 15 10) = some (some 1) ∧
    ((Editor.init.addCircle 10 10 5).bind (fun p => p.1.moveCommand 10 10 5 0)).bind
        (fun p => p.1.findElement 10 10) = some (some 1) ∧
    ((Editor.init.addCircle 10 10 5).bind (fun p => p.1.moveCommand 10 10 5 0)).bind
        (fun p => p.1.findElement 9 10) = some none := by
  decide!

/-- C12, as stated, fails: the rectangle at `(2,2)` with width 0 and height 0 is
found by the query point `(2,2)`. -/
theorem degenerate_rectangle_hits_own_position :
    (rectangle 1 2 2 0 0).find 2 2 = some (some 1) ∧
    (rectangle 1 2 2 0 0).find 2 2 ≠ some none := by
  decide!

/-- C12 as amended: a rectangle with width 0 and height 0 is found exactly by
the query point equal to its position, and by no other point. -/
theorem degenerate_rectangle_matches_only_position (a : Nat) (x y qx qy : ℚ) :
    (rectangle a x y 0 0).find qx qy = some (if qx = x ∧ qy = y then some a else none) := by
  simp only [Element.find, add_zero, ge_iff_le, Option.some.injEq]
  by_cases h : qx = x ∧ qy = y
  · obtain ⟨h1, h2⟩ := h
    subst h1 h2
    simp
  · rw [if_neg h, if_neg]
    intro hc
    exact h ⟨le_antisymm hc.2.1 hc.1, le_antisymm hc.2.2.2 hc.2.2.1⟩

/-- C13 (registry coverage), evaluated at `add_group 5 5` followed by `copy 5 5`:
the copy is a group (address 2) added under the root, and `groups_` holds
only the root and the first group. -/
theorem copied_group_is_not_registered :
    ((Editor.init.addGroup 5 5).bind (fun p => p.1.copyCommand 5 5)).map
        (fun p => (p.1.root_, p.1.groups_, p.2))
      = some (group 0 0 0 [group 1 5 5 [], group 2 5 5 []], [0, 1], [Msg.copied 5 5]) ∧
    2 ∈ (group 0 0 0 [group 1 5 5 [], group 2 5 5 []]).groupAddrs ∧
    2 ∉ [0, 1] := by
  decide!

/-- C14 (duplicate independence): for a shape `s` without empty pointers whose
identities are all below the allocator, `clone` succeeds; the duplicate `c`
has the value of `s` (a deep copy), prints exactly like `s` at every
indentation, and no identity of `c` occurs in `s`.  In every scene `t` that
holds `s` at address `a` and `c` at its address `n`, translating through the
pointer to the duplicate, or adding to it (when it is a group) a child that
does not contain `s`, succeeds and leaves the object at `a` equal to `s`, so
the render of `s` is unchanged. -/
theorem duplicate_independence (s : Element) (n : Nat)
    (hnn : s.noNull = true) (hfresh : ∀ x ∈ s.addrs, x < n) :
    ∃ c n', s.clone n = some (c, n') ∧ c.value = s.value ∧
      (∀ k, c.print k = s.print k) ∧ (∀ x ∈ c.addrs, x ∉ s.addrs) ∧
      (∀ (t : Element) (a : Nat) (dx dy : ℚ), t.deref a = some s → t.deref n = some c →
        ∃ t', t.invoke n (fun e => e.move dx dy) = some t' ∧ t'.deref a = some s ∧
          (t'.deref a).bind (fun o => o.print 0) = s.print 0) ∧
      (∀ (t : Element) (a : Nat) (ch : Element), t.deref a = some s → t.deref n = some c →
        c.isGroup = true → a ∉ ch.addrs →
        ∃ t', t.invoke n (fun g => Group.add g ch) = some t' ∧ t'.deref a = some s ∧
          (t'.deref a).bind (fun o => o.print 0) = s.print 0) := by
  obtain ⟨c, n', hc, hcnn, hcv, hcg, _, hca⟩ := clone_spec s n hnn
  have hdisj : ∀ x ∈ c.addrs, x ∉ s.addrs := by
    intro x hx hs
    have h1 := (hca x hx).1
    have h2 := hfresh x hs
    omega
  have hn : n ∉ s.addrs := fun h => by
    have := hfresh n h
    omega
  have hframe : ∀ (t : Element) (a : Nat) (v : Element), t.deref a = some s →
      t.deref n = some c → a ∉ v.addrs → (t.store n v).deref a = some s := by
    intro t a v ha hcn hv
    rw [deref_store_frame t a n v ?_ hv ?_, ha]
    · intro ob hob
      rw [hcn] at hob
      cases hob
      intro hmem
      exact hdisj a hmem (get_mem_addrs (deref_get _ _ _ ha))
    · intro s' hs'
      rw [ha] at hs'
      cases hs'
      exact hn
  refine ⟨c, n', hc, hcv, ?_, hdisj, ?_, ?_⟩
  · intro k
    rw [← print_value c k, hcv, print_value s k]
  · intro t a dx dy ha hcn
    obtain ⟨c', hm, _⟩ := move_spec c dx dy hcnn
    have hd : (t.store n c').deref a = some s := by
      apply hframe t a c' ha hcn
      rw [move_addrs c c' dx dy hm]
      intro hmem
      exact hdisj a hmem (get_mem_addrs (deref_get _ _ _ ha))
    exact ⟨t.store n c', by simp [invoke, hcn, hm], hd, by simp [hd]⟩
  · intro t a ch ha hcn hg hch
    cases c with
    | null => simp [isGroup] at hg
    | circle _ _ _ _ => simp [isGroup] at hg
    | rectangle _ _ _ _ _ => simp [isGroup] at hg
    | group b x y cs =>
      have hd : (t.store n (group b x y (cs ++ [ch]))).deref a = some s := by
        apply hframe t a _ ha hcn
        intro hmem
        simp only [addrs, addrsAll_append, addrsAll, List.append_nil, List.mem_cons,
          List.mem_append] at hmem
        have hself := get_mem_addrs (deref_get _ _ _ ha)
        rcases hmem with h | h | h
        · exact hdisj a (by simp [addrs, h]) hself
        · exact hdisj a (by simp [addrs, h]) hself
        · exact hch h
      exact ⟨t.store n (group b x y (cs ++ [ch])), by simp [invoke, hcn, Group.add], hd,
        by simp [hd]⟩

/-- C14 witness: the group at address 1 (holding a circle) is cloned at allocator 3,
as `copyCommand` does in the scene with root 0; in the scene that holds both,
the duplicate (address 3) is translated by `(1, 1)` and gets a new child, and
the original still prints as before. -/
theorem duplicate_independence_witness :
    (group 1 5 5 [circle 2 1 1 1]).clone 3 = some (group 3 5 5 [circle 4 1 1 1], 5) ∧
    (∃ t', (group 0 0 0 [group 1 5 5 [circle 2 1 1 1], group 3 5 5 [circle 4 1 1 1]]).invoke 3
          (fun e => e.move 1 1) = some t' ∧
        t'.deref 1 = some (group 1 5 5 [circle 2 1 1 1]) ∧
        (t'.deref 1).bind (fun o => o.print 0) = (group 1 5 5 [circle 2 1 1 1]).print 0) ∧
    (∃ t', (group 0 0 0 [group 1 5 5 [circle 2 1 1 1], group 3 5 5 [circle 4 1 1 1]]).invoke 3
          (fun g => Group.add g (rectangle 5 0 0 1 1)) = some t' ∧
        t'.deref 1 = some (group 1 5 5 [circle 2 1 1 1]) ∧
        (t'.deref 1).bind (fun o => o.print 0) = (group 1 5 5 [circle 2 1 1 1]).print 0) := by
  obtain ⟨c, n', hc, _, _, _, hmove, hadd⟩ :=
    duplicate_independence (group 1 5 5 [circle 2 1 1 1]) 3 (by decide!) (by decide!)
  have h0 : (group 1 5 5 [circle 2 1 1 1]).clone 3 = some (group 3 5 5 [circle 4 1 1 1], 5) := by
    decide!
  rw [h0] at hc
  simp only [Option.some.injEq, Prod.mk.injEq] at hc
  obtain ⟨hc1, _⟩ := hc
  subst hc1
  exact ⟨h0,
    hmove (group 0 0 0 [group 1 5 5 [circle 2 1 1 1], group 3 5 5 [circle 4 1 1 1]]) 1 1 1
      (by decide!) (by decide!),
    hadd (group 0 0 0 [group 1 5 5 [circle 2 1 1 1], group 3 5 5 [circle 4 1 1 1]]) 1
      (rectangle 5 0 0 1 1) (by decide!) (by decide!) (by decide!) (by decide!)⟩

/-- C15 (history stack discipline), evaluated at `add_circle 10 10 5` followed by
`undo` and `redo`.  The stacks move as claimed: `undoCommand` pops the Add
from the undo stack and pushes it on the redo stack, `redoCommand` moves it
back.  The edit itself is neither reversed nor re-applied: after the undo the
circle is still a child of the root, and after the redo the root holds the
circle and an empty pointer. -/
theorem undo_moves_add_without_reversing_it :
    (Editor.init.addCircle 10 10 5).map Prod.fst
      = some (Editor.mk (group 0 0 0 [circle 1 10 10 5]) [AddCommand 0 null] [] [0] 2) ∧
    (Editor.mk (group 0 0 0 [circle 1 10 10 5]) [AddCommand 0 null] [] [0] 2).undoCommand
      = some (Editor.mk (group 0 0 0 [circle 1 10 10 5]) [] [AddCommand 0 null] [0] 2,
          [Msg.undone]) ∧
    (Editor.mk (group 0 0 0 [circle 1 10 10 5]) [] [AddCommand 0 null] [0] 2).redoCommand
      = some (Editor.mk (group 0 0 0 [circle 1 10 10 5, null]) [AddCommand 0 null] [] [0] 2,
          [Msg.redone]) ∧
    Editor.init.undoCommand = some (Editor.init, [Msg.nothingToUndo]) ∧
    Editor.init.redoCommand = some (Editor.init, [Msg.nothingToRedo]) := by
  decide!

/-- C16 (remove result), evaluated at `remove 0 0` on the initial editor:
`findElement(0, 0)` returns the root, `findParent` finds no owner, nothing is
detached and nothing is pushed, and the message written is the one for a
removal. -/
theorem remove_root_reports_removed :
    Editor.init.findElement 0 0 = some (some 0) ∧
    Editor.findParent Editor.init.root_ 0 = none ∧
    Editor.init.removeCommand 0 0 = some (Editor.init, [Msg.removed 0 0]) := by
  decide!

/-- C17 (no null placeholders), evaluated at `add_circle 10 10 5`, `undo`, `redo`,
`add_rectangle 2 2 3 4`: the root's vector is circle, empty pointer,
rectangle; the second `next()` of a fresh cursor returns `nullptr` and the
third returns the rectangle. -/
theorem redo_of_add_leaves_null_slot :
    ((((Editor.init.addCircle 10 10 5).bind (fun p => p.1.undo)).bind Editor.redo).bind
        (fun ed => ed.addRectangle 2 2 3 4)).map (fun p => p.1.root_)
      = some (group 0 0 0 [circle 1 10 10 5, null, rectangle 2 2 2 3 4]) ∧
    (ElementIterator.next (ElementIterator.mk'
        (group 0 0 0 [circle 1 10 10 5, null, rectangle 2 2 2 3 4]))).1 = circle 1 10 10 5 ∧
    (ElementIterator.next (ElementIterator.next (ElementIterator.mk'
        (group 0 0 0 [circle 1 10 10 5, null, rectangle 2 2 2 3 4]))).2).1 = null ∧
    (ElementIterator.next (ElementIterator.next (ElementIterator.next (ElementIterator.mk'
        (group 0 0 0 [circle 1 10 10 5, null, rectangle 2 2 2 3 4]))).2).2).1
      = rectangle 2 2 2 3 4 := by
  decide!

/-- C18 (end-of-sequence signal), evaluated on two trees without empty slots.  On
the empty root `hasNext()` is true and the following `next()` returns
`nullptr`; on the root holding one rectangle the same happens after the
rectangle was handed out.  In both cases `iterateCommand` writes the warning. -/
theorem hasNext_true_but_next_null :
    (ElementIterator.mk' (group 0 0 0 [])).hasNext = true ∧
    (ElementIterator.next (ElementIterator.mk' (group 0 0 0 []))).1 = null ∧
    Editor.iterateCommand 1 Editor.init = some [Msg.iterating, Msg.nullWarning] ∧
    (ElementIterator.next (ElementIterator.mk' (group 0 0 0 [rectangle 1 2 2 3 4]))).2.hasNext
      = true ∧
    (ElementIterator.next (ElementIterator.next (ElementIterator.mk'
        (group 0 0 0 [rectangle 1 2 2 3 4]))).2).1 = null ∧
    Editor.iterateCommand 2 (Editor.mk (group 0 0 0 [rectangle 1 2 2 3 4]) [] [] [0] 2)
      = some [Msg.iterating, Msg.printed [Line.rectangle 0 2 2 3 4], Msg.nullWarning] := by
  decide!

/-- C19 (find_parent correctness): in a tree under a root group in which no
address occurs twice, for every group at address `p` of the tree (the root or
a group at any depth) and every child `c` of that group with identity `e`,
`findParent(root, e)` returns `p`; for the root's own address, and for every
address that does not occur below the root, it returns `nullptr`. -/
theorem findParent_correct (a : Nat) (x y : ℚ) (es : List Element)
    (hnd : (group a x y es).addrs.Nodup) :
    (∀ (p : Nat) (px py : ℚ) (cs : List Element) (c : Element) (e : Nat),
      (group a x y es).deref p = some (group p px py cs) → c ∈ cs → c.get = some e →
      Editor.findParent (group a x y es) e = some p) ∧
    Editor.findParent (group a x y es) a = none ∧
    (∀ e, e ∉ addrsAll es → Editor.findParent (group a x y es) e = none) := by
  refine ⟨?_, ?_, ?_⟩
  · intro p px py cs c e hp hc hg
    exact Editor.findParent_deep _ p px py cs c e hnd hp hc hg
  · simp only [addrs, List.nodup_cons] at hnd
    exact Editor.findParent_none _ a (by simpa [getElements] using hnd.1)
  · intro e he
    exact Editor.findParent_none _ e (by simpa [getElements] using he)

/-- C19 witness: the root holds a circle and a group, which holds a rectangle and a
nested group with a circle; the parent of the innermost circle (address 5) is
the nested group (address 4), the parent of the group 2 is the root, and the
root's address and the absent address 9 have no parent. -/
theorem findParent_correct_witness :
    Editor.findParent (group 0 0 0 [circle 1 10 10 5,
        group 2 5 5 [rectangle 3 1 1 2 2, group 4 0 1 [circle 5 1 1 1]]]) 5 = some 4 ∧
    Editor.findParent (group 0 0 0 [circle 1 10 10 5,
        group 2 5 5 [rectangle 3 1 1 2 2, group 4 0 1 [circle 5 1 1 1]]]) 2 = some 0 ∧
    Editor.findParent (group 0 0 0 [circle 1 10 10 5,
        group 2 5 5 [rectangle 3 1 1 2 2, group 4 0 1 [circle 5 1 1 1]]]) 0 = none ∧
    Editor.findParent (group 0 0 0 [circle 1 10 10 5,
        group 2 5 5 [rectangle 3 1 1 2 2, group 4 0 1 [circle 5 1 1 1]]]) 9 = none :=
  have h := findParent_correct 0 0 0
    [circle 1 10 10 5, group 2 5 5 [rectangle 3 1 1 2 2, group 4 0 1 [circle 5 1 1 1]]]
    (by decide!)
  ⟨h.1 4 0 1 [circle 5 1 1 1] (circle 5 1 1 1) 5 (by decide!) (by decide!) (by decide!),
    h.1 0 0 0 [circle 1 10 10 5, group 2 5 5 [rectangle 3 1 1 2 2, group 4 0 1 [circle 5 1 1 1]]]
      (group 2 5 5 [rectangle 3 1 1 2 2, group 4 0 1 [circle 5 1 1 1]]) 2
      (by decide!) (by decide!) (by decide!),
    h.2.1, h.2.2 9 (by decide!)⟩

/-- C20 (hit-test under group translation): let `g` be a group at `(gx, gy)` whose
children are all circles or rectangles, and let neither `(x, y)` match the
position of `g` nor `(x + 2dx, y + 2dy)` the position of the translated
group within the tolerance.  Then `move(dx, dy)` succeeds on `g`, keeps the
children's identities in order, and `find` on the translated group at
`(x + 2dx, y + 2dy)` returns the same pointer as `find` on `g` at `(x, y)`
(the same child, or `nullptr` in both cases); index by index, the child of
the translated group is hit by its re-offset query exactly when the child of
`g` is hit by its own. -/
theorem hit_test_shifts_by_twice_delta (a : Nat) (gx gy : ℚ) (cs : List Element)
    (dx dy x y : ℚ)
    (hleaf : ∀ c ∈ cs, c.isLeaf = true)
    (h1 : ¬ (|gx - x| < 1 / 100000 ∧ |gy - y| < 1 / 100000))
    (h2 : ¬ (|gx + dx - (x + 2 * dx)| < 1 / 100000 ∧ |gy + dy - (y + 2 * dy)| < 1 / 100000)) :
    ∃ cs', (group a gx gy cs).move dx dy = some (group a (gx + dx) (gy + dy) cs') ∧
      cs'.map Element.get = cs.map Element.get ∧
      (group a (gx + dx) (gy + dy) cs').find (x + 2 * dx) (y + 2 * dy)
        = (group a gx gy cs).find x y ∧
      ∀ i, (cs'.get? i).bind
            (fun c => c.find (x + 2 * dx - (gx + dx)) (y + 2 * dy - (gy + dy)))
        = (cs.get? i).bind (fun c => c.find (x - gx) (y - gy)) := by
  obtain ⟨cs', hm, hg, hf, hi⟩ := findAll_moveAll_leaves cs dx dy (x - gx) (y - gy) hleaf
  have ex : x + 2 * dx - (gx + dx) = x - gx + dx := by ring
  have ey : y + 2 * dy - (gy + dy) = y - gy + dy := by ring
  refine ⟨cs', by simp [move, hm], hg, ?_, ?_⟩
  · simp only [find, if_neg h1, if_neg h2, ex, ey, hf]
  · intro i
    rw [ex, ey]
    exact hi i

/-- C20 witness: a group at `(5,5)` with a circle and a rectangle, translated by
`(3,-1)`, queried at `(6,6)`. -/
theorem hit_test_shifts_by_twice_delta_witness :
    ∃ cs', (group 1 5 5 [circle 2 1 1 1, rectangle 3 0 0 4 4]).move 3 (-1)
        = some (group 1 (5 + 3) (5 + -1) cs') ∧
      cs'.map Element.get = [circle 2 1 1 1, rectangle 3 0 0 4 4].map Element.get ∧
      (group 1 (5 + 3) (5 + -1) cs').find (6 + 2 * 3) (6 + 2 * -1)
        = (group 1 5 5 [circle 2 1 1 1, rectangle 3 0 0 4 4]).find 6 6 ∧
      ∀ i, (cs'.get? i).bind
            (fun c => c.find (6 + 2 * 3 - (5 + 3)) (6 + 2 * -1 - (5 + -1)))
        = ([circle 2 1 1 1, rectangle 3 0 0 4 4].get? i).bind
            (fun c => c.find (6 - 5) (6 - 5)) :=
  hit_test_shifts_by_twice_delta 1 5 5 [circle 2 1 1 1, rectangle 3 0 0 4 4] 3 (-1) 6 6
    (by decide!) (by decide!) (by decide!)

end Task5
